import Mathlib

/-
  Verification development for the golab topology compiler and orchestrator.

  Shallow embedding of:
    - package topology (topology.go, most complete iteration: populateNodes,
      populateLoopbacks, populateProtocols, autoSubnets, allocateIPSubnets,
      populateLinks, populateSysctls, populate)
    - package golab (golab.go: Build, Wreck)
    - the go-cidr helpers used by the compiler (AddressRange, Dec, Inc,
      Host, NextSubnet) and the net.ParseCIDR behaviour the code relies on.

  Modelling conventions:
    - IP addresses are natural numbers below 2^w where w = 32 for IPv4 and
      w = 128 for IPv6.  A CIDR string is represented by its parsed content
      (family flag, numeric address, prefix length); a string that does not
      parse is represented by the IPStr.bad constructor.  IPv4-mapped IPv6
      literals are not represented.  net.IPNet.String / net.ParseCIDR
      round-trip on the masked networks the code produces, so re-parsing a
      rendered subnet is the identity in the model.
    - YAML deserialization is external to the core (spec section 1); the
      embedding starts from the decoded Topology struct.  Fields the schema
      does not let the user set (Interfaces, Subnets, Gateways, Protocols,
      Sysctls, Vendor, Name of nodes) start at their zero values.
    - Go maps are association lists with distinct keys; Go nil slices are
      Option lists where the code distinguishes nil from empty.
    - The ambient working directory (os.Getenv "PWD") is threaded as an
      explicit pwd argument.
    - Error values keep their kind and the offending value; the exact
      formatted message text is not modelled.
-/

namespace GoLab

/-- Bit width of an address family: 32 for IPv4, 128 for IPv6. -/
def width (v4 : Bool) : Nat := if v4 then 32 else 128

/-- Clear the low h bits of an address (net.IP.Mask with a prefix mask). -/
def maskTo (a h : Nat) : Nat := a - a % 2 ^ h

/-- cidr.Inc: increment an address, wrapping at the family width. -/
def ipInc (w a : Nat) : Nat := (a + 1) % 2 ^ w

/-- cidr.Dec: decrement an address, wrapping at the family width. -/
def ipDec (w a : Nat) : Nat := (a + (2 ^ w - 1)) % 2 ^ w

/-- A parsed IP subnet: family, masked network address, prefix length. -/
structure Subnet where
  v4 : Bool
  net : Nat
  plen : Nat
deriving DecidableEq, Repr

/-- Number of host bits of a subnet. -/
def hostBits (s : Subnet) : Nat := width s.v4 - s.plen

/-- cidr.AddressRange second component: the broadcast (last) address,
network OR-ed with all-ones host bits, i.e. net + 2^h - 1 on masked nets. -/
def bcast (s : Subnet) : Nat := s.net + (2 ^ hostBits s - 1)

/-- cidr.Host: the num-th address of a subnet; errors (none) when num
exceeds the all-ones host value 2^h - 1. -/
def cidrHost (s : Subnet) (num : Nat) : Option Nat :=
  if num ≤ 2 ^ hostBits s - 1 then some (s.net + num) else none

/-- Largest host index cidr.Host accepts for a subnet. -/
def hostCapacity (s : Subnet) : Nat := 2 ^ hostBits s - 1

/-- The gateway allocateIPSubnets records: cidr.Dec of the broadcast. -/
def gatewayOf (s : Subnet) : Nat := ipDec (width s.v4) (bcast s)

/-- cidr.NextSubnet at the subnet's own prefix length: mask the broadcast
back to the prefix, take that range's last address, increment, mask. -/
def nextSubnet (s : Subnet) : Subnet :=
  let cur : Subnet := { s with net := maskTo (bcast s) (hostBits s) }
  { s with net := maskTo (ipInc (width s.v4) (bcast cur)) (hostBits s) }

/-- Two subnets overlap when they are of one family and their address
ranges intersect. -/
def subnetsOverlap (a b : Subnet) : Bool :=
  a.v4 = b.v4 && a.net ≤ bcast b && b.net ≤ bcast a

/-- Well-formedness net.ParseCIDR guarantees: prefix within the family
width, network below the family bound and aligned to the prefix. -/
def WFSubnet (s : Subnet) : Prop :=
  s.plen ≤ width s.v4 ∧ s.net < 2 ^ width s.v4 ∧ s.net % 2 ^ hostBits s = 0

instance (s : Subnet) : Decidable (WFSubnet s) := by
  unfold WFSubnet; infer_instance

/-- An IP-bearing string: either unparseable, or a CIDR identified by its
family, numeric address (possibly with host bits set) and prefix length. -/
inductive IPStr where
  | bad (s : String)
  | cidr (v4 : Bool) (addr : Nat) (plen : Nat)
deriving DecidableEq, Repr

/-- net.ParseCIDR: yields the (unmasked) address and the masked network,
or none on a malformed string or out-of-range numbers. -/
def parseCIDR : IPStr → Option (Nat × Subnet)
  | .bad _ => none
  | .cidr v4 a p =>
      if p ≤ width v4 ∧ a < 2 ^ width v4 then
        some (a, ⟨v4, maskTo a (width v4 - p), p⟩)
      else none

/-- Render a subnet back to its CIDR string (net.IPNet.String). -/
def renderSubnet (s : Subnet) : IPStr := .cidr s.v4 s.net s.plen

/-- Render a host address at a prefix length (addr.String() + "/" + pl). -/
def renderAddr (v4 : Bool) (a p : Nat) : IPStr := .cidr v4 a p

/-- strings.HasPrefix, recursion on character lists. -/
def strStartsWith (s pre : String) : Bool := pre.data.isPrefixOf s.data

/-- Character-list splitter behind strings.Split: cut at each
non-overlapping occurrence of the separator, scanning left to right.
The fuel argument bounds the recursion; each call consumes at least one
character, so any fuel above the string length is enough. -/
def splitOnAuxL (sep : List Char) : Nat → List Char → List Char →
    List (List Char)
  | 0, cur, _ => [cur.reverse]
  | fuel + 1, cur, s =>
    if sep.isPrefixOf s then
      cur.reverse :: splitOnAuxL sep fuel [] (s.drop sep.length)
    else
      match s with
      | [] => [cur.reverse]
      | c :: rest => splitOnAuxL sep fuel (c :: cur) rest

/-- strings.Split: an empty separator is never used here, and Go returns
the whole string in that case for a non-empty separator semantics. -/
def strSplitOn (s sep : String) : List String :=
  if sep = "" then [s]
  else (splitOnAuxL sep.data (s.data.length + 1) [] s.data).map
    (fun l => ⟨l⟩)

/-- Go path.IsAbs: a path is absolute when it starts with a slash. -/
def pathIsAbs (p : String) : Bool := strStartsWith p "/"

/-- Segment processing of Go path.Clean: drop empty and dot segments,
resolve dotdot against the stack (kept reversed). -/
def cleanSegs (rooted : Bool) (stack : List String) : List String → List String
  | [] => stack
  | seg :: rest =>
    if seg = "" ∨ seg = "." then cleanSegs rooted stack rest
    else if seg = ".." then
      match stack with
      | top :: stack1 =>
          if top = ".." then cleanSegs rooted (seg :: top :: stack1) rest
          else cleanSegs rooted stack1 rest
      | [] => if rooted then cleanSegs rooted [] rest
              else cleanSegs rooted [".."] rest
    else cleanSegs rooted (seg :: stack) rest

/-- Go path.Clean (lexical). -/
def pathClean (p : String) : String :=
  if p = "" then "." else
  let rooted := pathIsAbs p
  let out := String.intercalate "/" (cleanSegs rooted [] (strSplitOn p "/")).reverse
  if rooted then "/" ++ out
  else if out = "" then "." else out

/-- Go path.Join: drop empty elements, join with slashes, Clean. -/
def pathJoin (elems : List String) : String :=
  let ne := elems.filter (fun e => e ≠ "")
  if ne.isEmpty then "" else pathClean (String.intercalate "/" ne)

/-- strings.Contains via splitOn: the pattern occurs iff splitting on it
yields more than one part (patterns here are non-empty literals). -/
def strContains (s pat : String) : Bool := 1 < (strSplitOn s pat).length

/-- vendors.Vendor. -/
inductive Vendor where
  | unknown
  | frr
  | arista
deriving DecidableEq, Repr

/-- vendors.DetectByImage: substring match on the image reference. -/
def detectByImage (image : String) : Vendor :=
  if strContains image "frr" then .frr
  else if strContains image "ceos" then .arista
  else .unknown

/-- vendors.ExtraBinds: mandatory binds by vendor. -/
def extraBinds : Vendor → List String
  | .frr => ["/lib/modules:/lib/modules"]
  | _ => []

/-- The supported-protocol mapping; a field is true when the map value is
the string yes and false when it is no. -/
structure Protocols where
  isis : Bool
  ospf : Bool
  ospf6 : Bool
  bgp : Bool
  ldp : Bool
deriving DecidableEq, Repr

/-- The MPLS sysctl map populateSysctls assigns: platformLabels is the
value of net.mpls.platform_labels, loInput records whether the entry
net.mpls.conf.lo.input=1 is present. -/
structure MplsSysctls where
  platformLabels : Nat
  loInput : Bool
deriving DecidableEq, Repr

/-- topology.Interface.  driverOpts true stands for the single fixed map
com.docker.network.endpoint.sysctls to net.mpls.conf.IFNAME.input=1,
false for the nil map. -/
structure Iface where
  name : String
  link : String
  ipv4 : Option IPStr
  ipv6 : Option IPStr
  driverOpts : Bool
deriving DecidableEq, Repr

/-- topology.Node.  loopbacks is an Option because the code distinguishes
a nil Loopbacks slice from an empty one. -/
structure Node where
  name : String
  image : String
  binds : List String
  vendor : Vendor
  interfaces : List Iface
  loopbacks : Option (List IPStr)
  protocols : Option Protocols
  enable : List String
  sysctls : Option MplsSysctls
deriving DecidableEq, Repr

/-- topology.Link.  Gateways are addresses as naturals. -/
structure Link where
  name : String
  endpoints : List String
  rawSubnets : Option (List IPStr)
  subnets : List Subnet
  gateways : List Nat
deriving DecidableEq, Repr

/-- topology.IPStartFrom: the auto-allocation pools. -/
structure IPStartFrom where
  rawLinks : Option (List IPStr)
  rawLoopbacks : Option (List IPStr)
deriving DecidableEq, Repr

/-- topology.Topology as decoded from YAML.  The nodes map is an
association list with distinct keys; a nil node pointer is none. -/
structure Topology where
  name : String
  nodes : List (String × Option Node)
  links : List Link
  ipStartFrom : Option IPStartFrom
  generateConfigs : Bool
deriving DecidableEq, Repr

/-- Error kinds mirroring the declared sentinel errors of the package. -/
inductive ErrKind where
  | corruptYAML
  | unknownNode
  | zeroNodes
  | tooFewEndpoints
  | invalidEndpoint
  | invalidCIDR
  | invalidInterface
  | subnetExhausted
  | missingImage
  | invalidBind
  | missingSubnets
  | missingLoopbacks
  | unknownProtocol
deriving DecidableEq, Repr

/-- Errors produced by the compiler, carrying the offending value.
ErrCorruptYAML arises in the external YAML decoding, before the embedded
pipeline starts; ErrMissingLoopbacks is declared by the package and kept
here so its absence from every code path can be stated. -/
inductive Err where
  | unknownNode (node ep : String)
  | zeroNodes
  | tooFewEndpoints (link : String)
  | invalidEndpoint (ep : String)
  | invalidCIDR (s : IPStr)
  | invalidInterface (iface ep : String)
  | subnetExhausted (s : Subnet) (num : Nat)
  | missingImage (node : String)
  | invalidBind (bind : String)
  | missingSubnets (link : String)
  | missingLoopbacks (node : String)
  | unknownProtocol (proto node : String)
deriving DecidableEq, Repr

/-- Kind of an error value. -/
def Err.kind : Err → ErrKind
  | .unknownNode _ _ => .unknownNode
  | .zeroNodes => .zeroNodes
  | .tooFewEndpoints _ => .tooFewEndpoints
  | .invalidEndpoint _ => .invalidEndpoint
  | .invalidCIDR _ => .invalidCIDR
  | .invalidInterface _ _ => .invalidInterface
  | .subnetExhausted _ _ => .subnetExhausted
  | .missingImage _ => .missingImage
  | .invalidBind _ => .invalidBind
  | .missingSubnets _ => .missingSubnets
  | .missingLoopbacks _ => .missingLoopbacks
  | .unknownProtocol _ _ => .unknownProtocol

/-- Kind of the error of a computation, none on success. -/
def errKindOf {α : Type} : Except Err α → Option ErrKind
  | .error e => some e.kind
  | .ok _ => none

/-- Association-list lookup (Go map read). -/
def alookup {α : Type} : List (String × α) → String → Option α
  | [], _ => none
  | kv :: rest, key => if kv.1 = key then some kv.2 else alookup rest key

/-- Association-list pointwise update of the entry with the given key
(Go updates the struct the map points at). -/
def aupdate {α : Type} (l : List (String × α)) (key : String) (f : α → α) :
    List (String × α) :=
  l.map (fun kv => if kv.1 = key then (kv.1, f kv.2) else kv)

/-- Sort map entries by key: the embedding of iterating a Go map in
slices.Sorted(maps.Keys(m)) order.  On distinct keys any correct sort
agrees with the order Go produces. -/
def charListLe : List Char → List Char → Bool
  | [], _ => true
  | _ :: _, [] => false
  | a :: as, b :: bs =>
    if a < b then true
    else if b < a then false
    else charListLe as bs

/-- Lexicographic string comparison, the order sort.Strings sorts by. -/
def strLe (a b : String) : Bool := charListLe a.data b.data

def sortByKey {α : Type} (l : List (String × α)) : List (String × α) :=
  List.insertionSort (fun a b => strLe a.1 b.1 = true) l

/-- Body of populateBinds: validate each user bind, absolutize relative
sources against pwd, drop duplicates of vendor binds. -/
def populateBindsGo (pwd : String) (extra : List String) :
    List String → Except Err (List String)
  | [] => .ok []
  | b :: rest =>
    match strSplitOn b ":" with
    | [source, target] =>
        if pathIsAbs target then
          let source1 := if pathIsAbs source then source
                         else pathJoin [pwd, source]
          let b1 := source1 ++ ":" ++ target
          match populateBindsGo pwd extra rest with
          | .error e => .error e
          | .ok tail => .ok (if b1 ∈ extra then tail else b1 :: tail)
        else .error (.invalidBind b)
    | _ => .error (.invalidBind b)

/-- Node.populateBinds: processed user binds followed by vendor binds. -/
def populateBinds (pwd : String) (vendor : Vendor) (binds : List String) :
    Except Err (List String) :=
  match populateBindsGo pwd (extraBinds vendor) binds with
  | .error e => .error e
  | .ok bs => .ok (bs ++ extraBinds vendor)

/-- Enable-list loop of populateProtocols: flip each named protocol to
yes, rejecting names outside the supported set. -/
def applyEnable (nodeName : String) (p : Protocols) :
    List String → Except Err Protocols
  | [] => .ok p
  | proto :: rest =>
    if proto = "isis" then applyEnable nodeName { p with isis := true } rest
    else if proto = "ospf" then applyEnable nodeName { p with ospf := true } rest
    else if proto = "ospf6" then applyEnable nodeName { p with ospf6 := true } rest
    else if proto = "bgp" then applyEnable nodeName { p with bgp := true } rest
    else if proto = "ldp" then applyEnable nodeName { p with ldp := true } rest
    else .error (.unknownProtocol proto nodeName)

/-- Node.populateProtocols: all protocols default to no; entries of the
enable list switch them to yes. -/
def populateProtocols (node : Node) : Except Err Node :=
  let base : Protocols := ⟨false, false, false, false, false⟩
  if node.enable.isEmpty then .ok { node with protocols := some base }
  else
    match applyEnable node.name base node.enable with
    | .error e => .error e
    | .ok p => .ok { node with protocols := some p }

/-- Shared advance loop of autoSubnets and the loopback-pool branch of
populateLoopbacks: parse each pool entry and replace it with the next
same-prefix-length subnet, failing on an unparseable entry. -/
def advancePool : List IPStr → Except Err (List IPStr)
  | [] => .ok []
  | raw :: rest =>
    match parseCIDR raw with
    | none => .error (.invalidCIDR raw)
    | some (_, sn) =>
      match advancePool rest with
      | .error e => .error e
      | .ok nexts => .ok (renderSubnet (nextSubnet sn) :: nexts)

/-- The lo interface before any address is assigned. -/
def loIfaceBase : Iface := ⟨"lo", "", none, none, false⟩

/-- Address loop of populateLoopbacks: each loopback string is parsed and
stored raw into the family field matching its parsed address. -/
def setLoopAddrs (ifc : Iface) : List IPStr → Except Err Iface
  | [] => .ok ifc
  | addr :: rest =>
    match parseCIDR addr with
    | none => .error (.invalidCIDR addr)
    | some (_, sn) =>
      if sn.v4 then setLoopAddrs { ifc with ipv4 := some addr } rest
      else setLoopAddrs { ifc with ipv6 := some addr } rest

/-- Tail of populateLoopbacks: build the lo interface from the loopback
list and append it to the node's interfaces. -/
def attachLo (node : Node) (loops : List IPStr) (pool : Option IPStartFrom) :
    Except Err (Node × Option IPStartFrom) :=
  match setLoopAddrs loIfaceBase loops with
  | .error e => .error e
  | .ok ifc =>
      .ok ({ node with interfaces := node.interfaces ++ [ifc] }, pool)

/-- Topology.populateLoopbacks: a node without loopbacks draws them from
the loopback pool when one is configured (advancing the pool), or is left
untouched, with no lo interface, when no pool entry list exists. -/
def populateLoopbacks (pool : Option IPStartFrom) (node : Node) :
    Except Err (Node × Option IPStartFrom) :=
  match node.loopbacks with
  | none =>
    match pool with
    | none => .ok (node, pool)
    | some sf =>
      match sf.rawLoopbacks with
      | none => .ok (node, pool)
      | some raws =>
        match advancePool raws with
        | .error e => .error e
        | .ok nexts =>
            attachLo { node with loopbacks := some raws } raws
              (some { sf with rawLoopbacks := some nexts })
  | some loops => attachLo node loops pool

/-- Per-node body of populateNodes after the nil/empty-image check: set
name and vendor, then binds, protocols and loopbacks in order. -/
def populateNode (pwd : String) (name : String) (n : Node)
    (pool : Option IPStartFrom) : Except Err (Node × Option IPStartFrom) :=
  let n1 := { n with name := name, vendor := detectByImage n.image }
  match populateBinds pwd n1.vendor n1.binds with
  | .error e => .error e
  | .ok bs =>
    match populateProtocols { n1 with binds := bs } with
    | .error e => .error e
    | .ok n3 => populateLoopbacks pool n3

/-- Iteration of populateNodes over the key-sorted entries, threading the
pool state consumed by loopback auto-allocation. -/
def populateNodesGo (pwd : String) :
    List (String × Option Node) → Option IPStartFrom →
    Except Err (List (String × Node) × Option IPStartFrom)
  | [], pool => .ok ([], pool)
  | (name, optN) :: rest, pool =>
    match optN with
    | none => .error (.missingImage name)
    | some n =>
      if n.image = "" then .error (.missingImage name)
      else
        match populateNode pwd name n pool with
        | .error e => .error e
        | .ok (n1, pool1) =>
          match populateNodesGo pwd rest pool1 with
          | .error e => .error e
          | .ok (rest1, pool2) => .ok ((name, n1) :: rest1, pool2)

/-- Topology.populateNodes: reject an empty node map, then enrich every
node in sorted key order. -/
def populateNodesStage (pwd : String) (nodes : List (String × Option Node))
    (pool : Option IPStartFrom) :
    Except Err (List (String × Node) × Option IPStartFrom) :=
  if nodes.isEmpty then .error .zeroNodes
  else populateNodesGo pwd (sortByKey nodes) pool

/-- Subnet loop of allocateIPSubnets: parse every raw subnet and record
it together with its gateway, the decrement of its broadcast. -/
def parseSubnets : List IPStr → Except Err (List Subnet × List Nat)
  | [] => .ok ([], [])
  | raw :: rest =>
    match parseCIDR raw with
    | none => .error (.invalidCIDR raw)
    | some (_, sn) =>
      match parseSubnets rest with
      | .error e => .error e
      | .ok (sns, gws) => .ok (sn :: sns, gatewayOf sn :: gws)

/-- Topology.allocateIPSubnets: a link without declared subnets takes the
current link-pool entries and the pool advances (autoSubnets); then every
raw subnet is parsed and gateways are recorded. -/
def allocateIPSubnets (pool : Option IPStartFrom) (link : Link) :
    Except Err (Link × Option IPStartFrom) :=
  match link.rawSubnets with
  | none =>
    match pool with
    | none => .error (.missingSubnets link.name)
    | some sf =>
      match sf.rawLinks with
      | none => .error (.missingSubnets link.name)
      | some raws =>
        match advancePool raws with
        | .error e => .error e
        | .ok nexts =>
          match parseSubnets raws with
          | .error e => .error e
          | .ok (sns, gws) =>
              .ok ({ link with rawSubnets := some raws,
                               subnets := link.subnets ++ sns,
                               gateways := link.gateways ++ gws },
                   some { sf with rawLinks := some nexts })
  | some raws =>
    match parseSubnets raws with
    | .error e => .error e
    | .ok (sns, gws) =>
        .ok ({ link with subnets := link.subnets ++ sns,
                         gateways := link.gateways ++ gws },
             pool)

/-- The overwrite semantics of an address slot: a value set by a later
subnet stands, otherwise the current subnet's address is written. -/
def keepOr (later : Option IPStr) (cur : IPStr) : Option IPStr :=
  match later with
  | some x => some x
  | none => some cur

/-- Inner subnet loop of the endpoint iteration: the num-th host of every
subnet, the last subnet of a family winning its address slot; a subnet
with no num-th host aborts with ErrSubnetExhausted. -/
def hostAddrs : List Subnet → Nat → Except Err (Option IPStr × Option IPStr)
  | [], _ => .ok (none, none)
  | s :: rest, num =>
    match cidrHost s num with
    | none => .error (.subnetExhausted s num)
    | some a =>
      let cur := renderAddr s.v4 a s.plen
      match hostAddrs rest num with
      | .error e => .error e
      | .ok (v4a, v6a) =>
        if s.v4 then .ok (keepOr v4a cur, v6a)
        else .ok (v4a, keepOr v6a cur)

/-- Endpoint loop of populateLinks: validate the node:iface format, the
node reference and the eth name, allocate the (j+1)-th host of each
subnet and append one Interface to the referenced node. -/
def processEndpoints (linkName : String) (subs : List Subnet) :
    List String → Nat → List (String × Node) →
    Except Err (List (String × Node))
  | [], _, ns => .ok ns
  | ep :: rest, j, ns =>
    match strSplitOn ep ":" with
    | [nodeName, ifaceName] =>
      match alookup ns nodeName with
      | none => .error (.unknownNode nodeName ep)
      | some _ =>
        if strStartsWith ifaceName "eth" then
          match hostAddrs subs (j + 1) with
          | .error e => .error e
          | .ok (v4a, v6a) =>
            let ifc : Iface := ⟨ifaceName, linkName, v4a, v6a, false⟩
            processEndpoints linkName subs rest (j + 1)
              (aupdate ns nodeName
                (fun n => { n with interfaces := n.interfaces ++ [ifc] }))
        else .error (.invalidInterface ifaceName ep)
    | _ => .error (.invalidEndpoint ep)

/-- One iteration of populateLinks: default the name from the 1-based
position, resolve subnets, then check the endpoint count and process the
endpoints. -/
def processLink (ns : List (String × Node)) (pool : Option IPStartFrom)
    (i : Nat) (link : Link) :
    Except Err (Link × List (String × Node) × Option IPStartFrom) :=
  let nm := if link.name = "" then "golab-link-" ++ toString (i + 1)
            else link.name
  match allocateIPSubnets pool { link with name := nm } with
  | .error e => .error e
  | .ok (link2, pool1) =>
    if link2.endpoints.length < 2 then .error (.tooFewEndpoints nm)
    else
      match processEndpoints nm link2.subnets link2.endpoints 0 ns with
      | .error e => .error e
      | .ok ns1 => .ok (link2, ns1, pool1)

/-- Topology.populateLinks over the declaration-ordered link list, i
being the absolute 0-based index of the first remaining link. -/
def populateLinksStage (ns : List (String × Node))
    (pool : Option IPStartFrom) (i : Nat) :
    List Link →
    Except Err (List Link × List (String × Node) × Option IPStartFrom)
  | [] => .ok ([], ns, pool)
  | l :: rest =>
    match processLink ns pool i l with
    | .error e => .error e
    | .ok (l1, ns1, pool1) =>
      match populateLinksStage ns1 pool1 (i + 1) rest with
      | .error e => .error e
      | .ok (rest1, ns2, pool2) => .ok (l1 :: rest1, ns2, pool2)

/-- Whether node.Protocols reads ldp as the literal no (skip condition of
populateSysctls; a nil map reads as the empty string and is not no). -/
def protoLdpIsNo (n : Node) : Bool :=
  match n.protocols with
  | some p => !p.ldp
  | none => false

/-- Per-node body of populateSysctls: FRR nodes with ldp enabled get the
MPLS sysctls, a conf.lo.input entry when a lo interface exists, and the
endpoint driver options on every non-lo interface. -/
def sysctlNode (n : Node) : Node :=
  if n.vendor = .frr then
    if protoLdpIsNo n then n
    else
      let hasLo := n.interfaces.any (fun ifc => ifc.name = "lo")
      let ifaces := n.interfaces.map
        (fun ifc => if ifc.name = "lo" then ifc
                    else { ifc with driverOpts := true })
      { n with sysctls := some ⟨100000, hasLo⟩, interfaces := ifaces }
  else n

/-- Topology.populateSysctls.  The Go loop ranges over the node map in
arbitrary order; its effect is independent per node, so the list order is
used. -/
def populateSysctlsStage (ns : List (String × Node)) :
    List (String × Node) :=
  ns.map (fun kv => (kv.1, sysctlNode kv.2))

/-- The enriched topology: nodes in sorted key order. -/
structure PopTopology where
  name : String
  nodes : List (String × Node)
  links : List Link
  ipStartFrom : Option IPStartFrom
  generateConfigs : Bool
deriving DecidableEq, Repr

/-- Topology.populate: populateNodes, populateLinks, populateSysctls in
order, first error aborting.  This is the compilation entry point below
the external YAML decoding of FromYAML. -/
def populate (pwd : String) (t : Topology) : Except Err PopTopology :=
  match populateNodesStage pwd t.nodes t.ipStartFrom with
  | .error e => .error e
  | .ok (ns, pool1) =>
    match populateLinksStage ns pool1 0 t.links with
    | .error e => .error e
    | .ok (links1, ns1, pool2) =>
        .ok ⟨t.name, populateSysctlsStage ns1, links1, pool2,
             t.generateConfigs⟩

/-- A call made on the virtualization provider. -/
inductive PCall where
  | linkCreate (l : Link)
  | nodeCreate (n : Node)
  | nodeRemove (n : Node)
  | linkRemove (l : Link)
deriving DecidableEq, Repr

/-- The virtProvider capability set used by golab.Build, with an abstract
error type so preservation of error identity can be stated. -/
structure VirtProvider (ε : Type) where
  linkCreate : Link → Except ε String
  nodeCreate : Node → Except ε String

/-- An error returned by golab.Build or golab.Wreck: either a compile
error from FromYAML or an error propagated from a provider call. -/
inductive GoErr (ε : Type) where
  | compileErr (e : Err)
  | providerErr (e : ε)
deriving DecidableEq

/-- Link loop of golab.Build: trace of LinkCreate calls made, stopping at
the first failing call, whose error is returned. -/
def buildLinks {ε : Type} (vp : VirtProvider ε) :
    List Link → List PCall × Option ε
  | [] => ([], none)
  | l :: rest =>
    match vp.linkCreate l with
    | .error e => ([.linkCreate l], some e)
    | .ok _ =>
      let (tr, res) := buildLinks vp rest
      (.linkCreate l :: tr, res)

/-- Node loop of golab.Build.  Go ranges over the node map in arbitrary
order; the sorted entry order stands in for it (the claims settled here
do not order the node calls among themselves). -/
def buildNodes {ε : Type} (vp : VirtProvider ε) :
    List (String × Node) → List PCall × Option ε
  | [] => ([], none)
  | kv :: rest =>
    match vp.nodeCreate kv.2 with
    | .error e => ([.nodeCreate kv.2], some e)
    | .ok _ =>
      let (tr, res) := buildNodes vp rest
      (.nodeCreate kv.2 :: tr, res)

/-- golab.Build: compile the intent, create every link, then every node,
aborting the remaining sequence on the first error and returning it. -/
def golabBuild {ε : Type} (pwd : String) (t : Topology)
    (vp : VirtProvider ε) : List PCall × Option (GoErr ε) :=
  match populate pwd t with
  | .error e => ([], some (.compileErr e))
  | .ok pt =>
    let (tr1, r1) := buildLinks vp pt.links
    match r1 with
    | some e => (tr1, some (.providerErr e))
    | none =>
      let (tr2, r2) := buildNodes vp pt.nodes
      match r2 with
      | some e => (tr1 ++ tr2, some (.providerErr e))
      | none => (tr1 ++ tr2, none)

/-- golab.Wreck as written in golab.go: the body is return nil, so no
provider call is made and no error is returned, whatever the intent. -/
def golabWreck {ε : Type} (_t : Topology) (_vp : VirtProvider ε) :
    List PCall × Option (GoErr ε) :=
  ([], none)

/-- Concatenation of a list of lists. -/
def catLists {α : Type} : List (List α) → List α
  | [] => []
  | l :: rest => l ++ catLists rest

/-- Parse a whole list of raw CIDRs, none when any entry fails. -/
def parseAll : List IPStr → Option (List Subnet)
  | [] => some []
  | r :: rest =>
    match parseCIDR r with
    | none => none
    | some (_, s) => (parseAll rest).map (s :: ·)

/-- The address an endpoint receives for one family: the num-th host of
the last subnet of that family (the overwrite semantics of the subnet
loop in populateLinks), rendered at that subnet's prefix length. -/
def epAddr (fam : Bool) (subs : List Subnet) (num : Nat) : Option IPStr :=
  ((subs.filter (fun s => s.v4 = fam)).getLast?).map
    (fun s => renderAddr fam (s.net + num) s.plen)

/-- The interfaces the endpoint loop of one link appends to the node
named k: one interface per endpoint whose node part is k, in endpoint
order, named by the endpoint's interface part, tagged with the link name
and carrying the (j+1)-th host address of the last subnet of each
family. -/
def addedIfaces (nm : String) (subs : List Subnet) :
    List String → Nat → String → List Iface
  | [], _, _ => []
  | ep :: rest, j, k =>
    (match strSplitOn ep ":" with
     | [nodeName, ifn] =>
         if nodeName = k then
           [⟨ifn, nm, epAddr true subs (j + 1), epAddr false subs (j + 1),
             false⟩]
         else []
     | _ => []) ++ addedIfaces nm subs rest (j + 1) k

/-- The interfaces the whole link stage appends to node k: the per-link
additions of the processed links, in link order. -/
def stageAdded (links : List Link) (k : String) : List Iface :=
  catLists (links.map (fun l => addedIfaces l.name l.subnets l.endpoints 0 k))

/-- Whether the loopback pool is configured: an IPStartFrom with a
non-nil loopback list. -/
def poolLoopsB : Option IPStartFrom → Bool
  | some sf => sf.rawLoopbacks.isSome
  | none => false

/-- Projection of an interface to the fields the link stage determines:
name, link, IPv4 address, IPv6 address. -/
def ifaceSig (ifc : Iface) : String × String × Option IPStr × Option IPStr :=
  (ifc.name, ifc.link, ifc.ipv4, ifc.ipv6)

/-- A plain node as decoded from YAML: an image only. -/
def nodeU : Node := ⟨"", "img", [], .unknown, [], none, none, [], none⟩

/-- Dotted-quad shorthand for IPv4 addresses as naturals. -/
def ip4n (a b c d : Nat) : Nat := ((a * 256 + b) * 256 + c) * 256 + d

/-- Intent with three nodes and two /29 point-to-point links. -/
def tC1 : Topology :=
  ⟨"c1", [("R1", some nodeU), ("R2", some nodeU), ("R3", some nodeU)],
   [⟨"", ["R1:eth1", "R2:eth1"], some [.cidr true (ip4n 100 64 1 0) 29],
     [], []⟩,
    ⟨"", ["R1:eth2", "R3:eth1"], some [.cidr true (ip4n 100 64 2 0) 29],
     [], []⟩],
   none, false⟩

/-- A provider on which every call succeeds. -/
def vpOkS : VirtProvider String :=
  ⟨fun _ => .ok "id", fun _ => .ok "id"⟩

/-- Intent with one user-subnet link between two nodes. -/
def tC2 : Topology :=
  ⟨"c2", [("R1", some nodeU), ("R2", some nodeU)],
   [⟨"l1", ["R1:eth0", "R2:eth0"], some [.cidr true (ip4n 10 0 0 0) 24],
     [], []⟩],
   none, false⟩

/-- The compiled topology of an intent, for stating concrete witnesses;
on a compilation error it falls back to the empty value. -/
def ptOf (pwd : String) (t : Topology) : PopTopology :=
  match populate pwd t with
  | .ok pt => pt
  | .error _ => ⟨"", [], [], none, false⟩

/-- Two-node intent used for the determinism witness. -/
def tC7a : Topology :=
  ⟨"c7", [("R1", some nodeU), ("R2", some nodeU)],
   [⟨"l7", ["R1:eth0", "R2:eth0"], some [.cidr true (ip4n 10 7 0 0) 24],
     [], []⟩],
   none, false⟩

/-- The same node entries in the opposite declaration order. -/
def n7b : List (String × Option Node) :=
  [("R2", some nodeU), ("R1", some nodeU)]

instance exceptDecEq {ε α : Type} [DecidableEq ε] [DecidableEq α] :
    DecidableEq (Except ε α)
  | .error e1, .error e2 =>
    if h : e1 = e2 then .isTrue (by rw [h])
    else .isFalse (fun hc => h (Except.error.inj hc))
  | .error _, .ok _ => .isFalse (fun hc => Except.noConfusion hc)
  | .ok _, .error _ => .isFalse (fun hc => Except.noConfusion hc)
  | .ok a1, .ok a2 =>
    if h : a1 = a2 then .isTrue (by rw [h])
    else .isFalse (fun hc => h (Except.ok.inj hc))

/-- A one-endpoint link with neither subnets nor a pool behind it. -/
def tC4 : Topology :=
  ⟨"c4", [("R1", some nodeU)], [⟨"", ["R1:eth0"], none, [], []⟩],
   none, false⟩

/-- A one-endpoint link that does declare a subnet. -/
def lC4w : Link :=
  ⟨"", ["R1:eth0"], some [.cidr true (ip4n 10 0 0 0) 24], [], []⟩

def tC4w : Topology := ⟨"c4w", [("R1", some nodeU)], [lC4w], none, false⟩

/-- The node R1 as the node stage leaves it: named, protocol map all-no,
no interfaces yet. -/
def nodeR1p : Node :=
  ⟨"R1", "img", [], .unknown, [], none,
   some ⟨false, false, false, false, false⟩, [], none⟩

/-- lC4w after allocateIPSubnets: auto-named, subnet parsed, gateway
recorded. -/
def l2C4w : Link :=
  ⟨"golab-link-1", ["R1:eth0"], some [.cidr true (ip4n 10 0 0 0) 24],
   [⟨true, ip4n 10 0 0 0, 24⟩], [ip4n 10 0 0 254]⟩

/-- Two nodes on a /31: the second endpoint would need host index 2 of a
subnet with a single host address. -/
def nodeR2p : Node :=
  ⟨"R2", "img", [], .unknown, [], none,
   some ⟨false, false, false, false, false⟩, [], none⟩

def nsC8 : List (String × Node) := [("R1", nodeR1p), ("R2", nodeR2p)]

def lC8 : Link :=
  ⟨"l8", ["R1:eth0", "R2:eth0"], some [.cidr true (ip4n 100 64 0 0) 31],
   [], []⟩

def tC8 : Topology :=
  ⟨"c8", [("R1", some nodeU), ("R2", some nodeU)], [lC8], none, false⟩

def sC8 : Subnet := ⟨true, ip4n 100 64 0 0, 31⟩

def l2C8 : Link :=
  ⟨"l8", ["R1:eth0", "R2:eth0"], some [.cidr true (ip4n 100 64 0 0) 31],
   [sC8], [ip4n 100 64 0 0]⟩

/-- A pool whose only link entry is the whole IPv4 space. -/
def tC5 : Topology :=
  ⟨"c5", [("R1", some nodeU), ("R2", some nodeU)],
   [⟨"", ["R1:eth0", "R2:eth0"], none, [], []⟩,
    ⟨"", ["R1:eth1", "R2:eth1"], none, [], []⟩],
   some ⟨some [.cidr true 0 0], none⟩, false⟩

def s29 : Subnet := ⟨true, ip4n 10 99 0 0, 29⟩

def raws29 : List IPStr := [.cidr true (ip4n 10 99 0 0) 29]

def sf29 : IPStartFrom := ⟨some raws29, none⟩

def lC5w : Link := ⟨"w5", ["R1:eth0", "R2:eth0"], none, [], []⟩

/-- A link carrying two IPv4 subnets. -/
def tC3 : Topology :=
  ⟨"c3", [("R1", some nodeU), ("R2", some nodeU)],
   [⟨"l3", ["R1:eth0", "R2:eth0"],
     some [.cidr true (ip4n 10 0 0 0) 24, .cidr true (ip4n 10 0 1 0) 24],
     [], []⟩],
   none, false⟩

/-- Whether an endpoint string references node k. -/
def epRefs (k ep : String) : Bool :=
  match strSplitOn ep ":" with
  | [n, _] => n == k
  | _ => false

/-- A single plain node, no loopbacks anywhere, no links. -/
def tC9 : Topology := ⟨"c9", [("R1", some nodeU)], [], none, false⟩

/-- A node declaring one IPv4 loopback. -/
def nodeL : Node :=
  ⟨"", "img", [], .unknown, [],
   some [.cidr true (ip4n 172 20 0 1) 32], none, [], none⟩

def tC9w : Topology := ⟨"c9w", [("R1", some nodeL)], [], none, false⟩

/-- A plain node with distinct names from the other concrete intents. -/
def tC10 : Topology := ⟨"c10", [("R7", some nodeU)], [], none, false⟩

lemma maskTo_eq_mul (a h : Nat) : maskTo a h = 2 ^ h * (a / 2 ^ h) := by
  have hd := Nat.div_add_mod a (2 ^ h)
  unfold maskTo
  omega

lemma maskTo_mod (a h : Nat) : maskTo a h % 2 ^ h = 0 := by
  rw [maskTo_eq_mul]
  exact Nat.mul_mod_right _ _

lemma maskTo_le (a h : Nat) : maskTo a h ≤ a := by
  unfold maskTo; omega

lemma maskTo_of_aligned {a h : Nat} (ha : a % 2 ^ h = 0) : maskTo a h = a := by
  unfold maskTo; omega

lemma hostBits_mk (v4 : Bool) (net p : Nat) :
    hostBits ⟨v4, net, p⟩ = width v4 - p := rfl

lemma parseCIDR_wf {x : IPStr} {a : Nat} {s : Subnet}
    (h : parseCIDR x = some (a, s)) : WFSubnet s := by
  cases x with
  | bad _ => simp [parseCIDR] at h
  | cidr v4 av p =>
    simp only [parseCIDR] at h
    split at h
    next hc =>
      rw [Option.some.injEq, Prod.mk.injEq] at h
      obtain ⟨ha, hs⟩ := h
      subst hs
      refine ⟨hc.1, lt_of_le_of_lt (maskTo_le _ _) hc.2, ?_⟩
      rw [hostBits_mk]
      exact maskTo_mod av (width v4 - p)
    next => simp at h

lemma pow2_pos (n : Nat) : 0 < 2 ^ n := Nat.pos_pow_of_pos _ (by omega)

lemma wf_net_add_le {s : Subnet} (hs : WFSubnet s) :
    s.net + 2 ^ hostBits s ≤ 2 ^ width s.v4 := by
  obtain ⟨hp, hlt, hal⟩ := hs
  obtain ⟨q, hq⟩ := Nat.dvd_of_mod_eq_zero hal
  have hw : width s.v4 = hostBits s + s.plen := by
    unfold hostBits; omega
  have hsplit : 2 ^ width s.v4 = 2 ^ hostBits s * 2 ^ s.plen := by
    rw [hw, pow_add]
  have hqlt : q < 2 ^ s.plen := by
    by_contra hcon
    push_neg at hcon
    have : 2 ^ hostBits s * 2 ^ s.plen ≤ 2 ^ hostBits s * q :=
      Nat.mul_le_mul_left _ hcon
    omega
  have hstep : 2 ^ hostBits s * (q + 1) ≤ 2 ^ hostBits s * 2 ^ s.plen :=
    Nat.mul_le_mul_left _ hqlt
  have hq2 : s.net + 2 ^ hostBits s = 2 ^ hostBits s * (q + 1) := by
    rw [hq]; ring
  omega

lemma wf_bcast_lt {s : Subnet} (hs : WFSubnet s) :
    bcast s < 2 ^ width s.v4 := by
  have h1 := wf_net_add_le hs
  have h2 := pow2_pos (hostBits s)
  unfold bcast
  omega

lemma gatewayOf_eq {s : Subnet} (hs : WFSubnet s) (hb : 0 < bcast s) :
    gatewayOf s = bcast s - 1 := by
  have h1 := wf_bcast_lt hs
  have h2 := pow2_pos (width s.v4)
  unfold gatewayOf ipDec
  rw [show bcast s + (2 ^ width s.v4 - 1)
        = 2 ^ width s.v4 + (bcast s - 1) by omega]
  rw [Nat.add_mod_left]
  exact Nat.mod_eq_of_lt (by omega)

lemma bcast_pos_of_host1 {s : Subnet} {x : Nat}
    (h : cidrHost s 1 = some x) : 0 < bcast s := by
  unfold cidrHost at h
  split at h
  next hc =>
    have h2 := pow2_pos (hostBits s)
    unfold bcast
    omega
  next => simp at h

lemma nextSubnet_eq {s : Subnet} (hs : WFSubnet s) :
    nextSubnet s =
      ⟨s.v4, (s.net + 2 ^ hostBits s) % 2 ^ width s.v4, s.plen⟩ := by
  obtain ⟨v4, net, p⟩ := s
  obtain ⟨hp, hlt, hal⟩ := hs
  simp only [hostBits_mk] at hal ⊢
  have hpos := pow2_pos (width v4 - p)
  have hwpos := pow2_pos (width v4)
  have hle : net + 2 ^ (width v4 - p) ≤ 2 ^ width v4 :=
    wf_net_add_le ⟨hp, hlt, hal⟩
  have hbmod : (net + (2 ^ (width v4 - p) - 1)) % 2 ^ (width v4 - p)
      = 2 ^ (width v4 - p) - 1 := by
    rw [Nat.add_mod, hal]
    simp
  show Subnet.mk v4
      (maskTo (ipInc (width v4)
        (bcast ⟨v4, maskTo (bcast ⟨v4, net, p⟩) (width v4 - p), p⟩))
        (width v4 - p)) p = _
  have hcur : maskTo (bcast ⟨v4, net, p⟩) (width v4 - p) = net := by
    show maskTo (net + (2 ^ (width v4 - p) - 1)) (width v4 - p) = net
    unfold maskTo
    rw [hbmod]
    omega
  rw [hcur]
  have hstep : ipInc (width v4) (bcast ⟨v4, net, p⟩)
      = (net + 2 ^ (width v4 - p)) % 2 ^ width v4 := by
    show (net + (2 ^ (width v4 - p) - 1) + 1) % 2 ^ width v4 = _
    congr 1
    omega
  rw [hstep]
  have hal2 : (net + 2 ^ (width v4 - p)) % 2 ^ (width v4 - p) = 0 := by
    rw [Nat.add_mod, hal]
    simp
  rcases lt_or_eq_of_le hle with hlt2 | heq2
  · rw [Nat.mod_eq_of_lt hlt2, maskTo_of_aligned hal2]
  · rw [heq2]
    simp only [Nat.mod_self]
    rw [maskTo_of_aligned (by simp)]

lemma subnetsOverlap_true_iff (a b : Subnet) :
    subnetsOverlap a b = true ↔
      a.v4 = b.v4 ∧ a.net ≤ bcast b ∧ b.net ≤ bcast a := by
  simp [subnetsOverlap, and_assoc]

lemma subnetsOverlap_next_false {s : Subnet} (hs : WFSubnet s)
    (hp : 1 ≤ s.plen) : subnetsOverlap s (nextSubnet s) = false := by
  rw [Bool.eq_false_iff]
  intro hcon
  rw [subnetsOverlap_true_iff, nextSubnet_eq hs] at hcon
  have hpos := pow2_pos (hostBits s)
  have hle := wf_net_add_le hs
  have hdouble : 2 ^ hostBits s * 2 ≤ 2 ^ width s.v4 := by
    have h1 : hostBits s + 1 ≤ width s.v4 := by
      have := hs.1
      unfold hostBits
      unfold width at this ⊢
      rcases s.v4 with _ | _ <;> simp_all <;> omega
    calc 2 ^ hostBits s * 2 = 2 ^ (hostBits s + 1) := by ring
      _ ≤ 2 ^ width s.v4 := Nat.pow_le_pow_right (by omega) h1
  obtain ⟨hfam, hab, hba⟩ := hcon
  have hab2 : s.net ≤ (s.net + 2 ^ hostBits s) % 2 ^ width s.v4
      + (2 ^ hostBits s - 1) := hab
  have hba2 : (s.net + 2 ^ hostBits s) % 2 ^ width s.v4 ≤ bcast s := hba
  unfold bcast at hba2
  rcases lt_or_eq_of_le hle with hlt | heq
  · rw [Nat.mod_eq_of_lt hlt] at hba2
    omega
  · rw [heq, Nat.mod_self] at hab2
    omega

lemma parseCIDR_renderSubnet {s : Subnet} (hs : WFSubnet s) :
    parseCIDR (renderSubnet s) = some (s.net, s) := by
  obtain ⟨v4, net, p⟩ := s
  obtain ⟨hp, hlt, hal⟩ := hs
  simp only [renderSubnet, parseCIDR]
  rw [if_pos ⟨hp, hlt⟩]
  rw [hostBits_mk] at hal
  rw [maskTo_of_aligned hal]

lemma cidrHost_isSome_iff (s : Subnet) (num : Nat) :
    (cidrHost s num).isSome = true ↔ num ≤ hostCapacity s := by
  unfold cidrHost hostCapacity
  split <;> simp_all

lemma cidrHost_eq_some {s : Subnet} {num x : Nat}
    (h : cidrHost s num = some x) : x = s.net + num := by
  unfold cidrHost at h
  split at h
  · injection h with h1
    omega
  · simp at h

lemma wf_nextSubnet {s : Subnet} (hs : WFSubnet s) :
    WFSubnet (nextSubnet s) := by
  rw [nextSubnet_eq hs]
  have h2 := pow2_pos (width s.v4)
  refine ⟨hs.1, ?_, ?_⟩
  · exact Nat.mod_lt _ h2
  · have hal : (s.net + 2 ^ hostBits s) % 2 ^ hostBits s = 0 := by
      rw [Nat.add_mod, hs.2.2]; simp
    have hle := wf_net_add_le hs
    show (s.net + 2 ^ hostBits s) % 2 ^ width s.v4
        % 2 ^ hostBits ⟨s.v4, _, s.plen⟩ = 0
    rcases lt_or_eq_of_le hle with hlt | heq
    · rw [Nat.mod_eq_of_lt hlt]
      exact hal
    · rw [heq]
      simp

lemma parseAll_wf {raws : List IPStr} {sns : List Subnet}
    (h : parseAll raws = some sns) : ∀ s ∈ sns, WFSubnet s := by
  induction raws generalizing sns with
  | nil =>
    simp [parseAll] at h
    subst h
    intro s hs
    simp at hs
  | cons r rest ih =>
    simp only [parseAll] at h
    cases hr : parseCIDR r with
    | none => rw [hr] at h; simp at h
    | some pr =>
      rw [hr] at h
      cases hrest : parseAll rest with
      | none => rw [hrest] at h; simp at h
      | some sns1 =>
        rw [hrest] at h
        simp only [Option.map_some', Option.some.injEq] at h
        subst h
        intro s hs
        rcases List.mem_cons.1 hs with heq | hmem
        · subst heq
          exact parseCIDR_wf (by rw [hr])
        · exact ih hrest s hmem

lemma parseSubnets_char {raws : List IPStr} {sns : List Subnet}
    {gws : List Nat} (h : parseSubnets raws = .ok (sns, gws)) :
    parseAll raws = some sns ∧ gws = sns.map gatewayOf := by
  induction raws generalizing sns gws with
  | nil =>
    simp only [parseSubnets] at h
    rw [Except.ok.injEq, Prod.mk.injEq] at h
    obtain ⟨h1, h2⟩ := h
    subst h1; subst h2
    exact ⟨rfl, rfl⟩
  | cons r rest ih =>
    simp only [parseSubnets] at h
    cases hr : parseCIDR r with
    | none => rw [hr] at h; simp at h
    | some pr =>
      rw [hr] at h
      cases hrest : parseSubnets rest with
      | error e => rw [hrest] at h; simp at h
      | ok pr2 =>
        rw [hrest] at h
        obtain ⟨sns1, gws1⟩ := pr2
        simp only [Except.ok.injEq, Prod.mk.injEq] at h
        obtain ⟨h1, h2⟩ := h
        subst h1; subst h2
        obtain ⟨ih1, ih2⟩ := ih hrest
        refine ⟨?_, ?_⟩
        · simp only [parseAll, hr, ih1, Option.map_some']
        · simp [ih2]

lemma parseAll_parseSubnets {raws : List IPStr} {sns : List Subnet}
    (h : parseAll raws = some sns) :
    parseSubnets raws = .ok (sns, sns.map gatewayOf) := by
  induction raws generalizing sns with
  | nil =>
    simp only [parseAll, Option.some.injEq] at h
    subst h
    rfl
  | cons r rest ih =>
    simp only [parseAll] at h
    cases hr : parseCIDR r with
    | none => rw [hr] at h; simp at h
    | some pr =>
      rw [hr] at h
      cases hrest : parseAll rest with
      | none => rw [hrest] at h; simp at h
      | some sns1 =>
        rw [hrest] at h
        simp only [Option.map_some', Option.some.injEq] at h
        subst h
        obtain ⟨a, s⟩ := pr
        simp only [parseSubnets, hr, ih hrest, List.map_cons]

lemma advancePool_char {raws : List IPStr} {sns : List Subnet}
    (h : parseAll raws = some sns) :
    advancePool raws = .ok (sns.map (fun s => renderSubnet (nextSubnet s))) := by
  induction raws generalizing sns with
  | nil =>
    simp only [parseAll, Option.some.injEq] at h
    subst h
    rfl
  | cons r rest ih =>
    simp only [parseAll] at h
    cases hr : parseCIDR r with
    | none => rw [hr] at h; simp at h
    | some pr =>
      rw [hr] at h
      cases hrest : parseAll rest with
      | none => rw [hrest] at h; simp at h
      | some sns1 =>
        rw [hrest] at h
        simp only [Option.map_some', Option.some.injEq] at h
        subst h
        obtain ⟨a, s⟩ := pr
        simp only [advancePool, hr, ih hrest, List.map_cons]

lemma aupdate_cons {α : Type} (kv : String × α) (rest : List (String × α))
    (k : String) (f : α → α) :
    aupdate (kv :: rest) k f =
      (if kv.1 = k then (kv.1, f kv.2) else kv) :: aupdate rest k f := rfl

lemma alookup_aupdate_self {α : Type} {ns : List (String × α)} {k : String}
    {n0 : α} (f : α → α) (h : alookup ns k = some n0) :
    alookup (aupdate ns k f) k = some (f n0) := by
  induction ns with
  | nil => simp [alookup] at h
  | cons kv rest ih =>
    rw [aupdate_cons]
    by_cases hk : kv.1 = k
    · simp only [alookup, if_pos hk, Option.some.injEq] at h
      subst h
      simp only [if_pos hk, alookup, if_pos hk]
    · simp only [alookup, if_neg hk] at h
      simp only [if_neg hk, alookup, if_neg hk]
      exact ih h

lemma alookup_aupdate_ne {α : Type} {ns : List (String × α)} {k k2 : String}
    (f : α → α) (hne : k2 ≠ k) :
    alookup (aupdate ns k f) k2 = alookup ns k2 := by
  induction ns with
  | nil => rfl
  | cons kv rest ih =>
    rw [aupdate_cons]
    by_cases hk : kv.1 = k
    · have hk2 : ¬ kv.1 = k2 := by
        rw [hk]; exact fun hcon => hne hcon.symm
      simp only [if_pos hk, alookup, if_neg hk2]
      exact ih
    · simp only [if_neg hk, alookup]
      by_cases hk2 : kv.1 = k2
      · simp only [if_pos hk2]
      · simp only [if_neg hk2]
        exact ih

lemma alookup_aupdate_none {α : Type} {ns : List (String × α)}
    {k k2 : String} (f : α → α) (h : alookup ns k2 = none) :
    alookup (aupdate ns k f) k2 = none := by
  induction ns with
  | nil => rfl
  | cons kv rest ih =>
    by_cases hk2 : kv.1 = k2
    · simp only [alookup, if_pos hk2] at h
      simp at h
    · simp only [alookup, if_neg hk2] at h
      rw [aupdate_cons]
      by_cases hk : kv.1 = k
      · have hk2b : ¬ kv.1 = k2 := hk2
        simp only [if_pos hk, alookup, if_neg hk2b]
        exact ih h
      · simp only [if_neg hk, alookup, if_neg hk2]
        exact ih h

lemma aupdate_keys {α : Type} (ns : List (String × α)) (k : String)
    (f : α → α) : (aupdate ns k f).map Prod.fst = ns.map Prod.fst := by
  induction ns with
  | nil => rfl
  | cons kv rest ih =>
    rw [aupdate_cons]
    by_cases hk : kv.1 = k
    · simp only [if_pos hk, List.map_cons, ih]
    · simp only [if_neg hk, List.map_cons, ih]

lemma getLast?_cons_of_ne_nil {α : Type} {l : List α} (a : α) (h : l ≠ []) :
    (a :: l).getLast? = l.getLast? := by
  cases l with
  | nil => exact absurd rfl h
  | cons b t => rfl

lemma epAddr_nil (fam : Bool) (num : Nat) : epAddr fam [] num = none := rfl

lemma epAddr_cons_pos {s : Subnet} {fam : Bool} (hv : s.v4 = fam)
    (rest : List Subnet) (num : Nat) :
    epAddr fam (s :: rest) num =
      keepOr (epAddr fam rest num) (renderAddr fam (s.net + num) s.plen) := by
  unfold epAddr
  rw [List.filter_cons, if_pos (by simp [hv])]
  cases hr : (rest.filter (fun t => t.v4 = fam)).getLast? with
  | none =>
    have hnil : rest.filter (fun t => t.v4 = fam) = [] :=
      List.getLast?_eq_none_iff.1 hr
    rw [hnil]
    simp [keepOr, hv]
  | some x =>
    have hne : rest.filter (fun t => t.v4 = fam) ≠ [] := by
      intro hcon
      rw [hcon] at hr
      simp at hr
    rw [getLast?_cons_of_ne_nil _ hne, hr]
    simp [keepOr]

lemma epAddr_cons_neg {s : Subnet} {fam : Bool} (hv : ¬ s.v4 = fam)
    (rest : List Subnet) (num : Nat) :
    epAddr fam (s :: rest) num = epAddr fam rest num := by
  unfold epAddr
  rw [List.filter_cons, if_neg (by simp [hv])]

lemma hostAddrs_cons_eq {s : Subnet} {rest : List Subnet} {num a : Nat}
    {r4 r6 : Option IPStr} (hch : cidrHost s num = some a)
    (hrest : hostAddrs rest num = .ok (r4, r6)) :
    hostAddrs (s :: rest) num =
      if s.v4 then
        .ok (keepOr r4 (renderAddr s.v4 a s.plen), r6)
      else
        .ok (r4, keepOr r6 (renderAddr s.v4 a s.plen)) := by
  simp only [hostAddrs, hch, hrest]

lemma hostAddrs_ok_eq {subs : List Subnet} {num : Nat}
    {v4a v6a : Option IPStr} (h : hostAddrs subs num = .ok (v4a, v6a)) :
    v4a = epAddr true subs num ∧ v6a = epAddr false subs num := by
  induction subs generalizing v4a v6a with
  | nil =>
    simp only [hostAddrs, Except.ok.injEq, Prod.mk.injEq] at h
    exact ⟨h.1.symm, h.2.symm⟩
  | cons s rest ih =>
    have hbase := h
    simp only [hostAddrs] at h
    cases hch : cidrHost s num with
    | none => simp [hch] at h
    | some a =>
      cases hrest : hostAddrs rest num with
      | error e => simp [hch, hrest] at h
      | ok pr =>
        obtain ⟨r4, r6⟩ := pr
        obtain ⟨ih4, ih6⟩ := ih hrest
        rw [hostAddrs_cons_eq hch hrest] at hbase
        have ha := cidrHost_eq_some hch
        subst ha
        cases hsv : s.v4 with
        | true =>
          rw [hsv, if_pos rfl] at hbase
          injection hbase with hpr
          rw [Prod.mk.injEq] at hpr
          obtain ⟨h4, h6⟩ := hpr
          subst h4
          subst h6
          constructor
          · rw [epAddr_cons_pos hsv, ← ih4]
          · rw [epAddr_cons_neg (by rw [hsv]; simp), ih6]
        | false =>
          rw [hsv, if_neg (by simp)] at hbase
          injection hbase with hpr
          rw [Prod.mk.injEq] at hpr
          obtain ⟨h4, h6⟩ := hpr
          subst h4
          subst h6
          constructor
          · rw [epAddr_cons_neg (by rw [hsv]; simp), ih4]
          · rw [epAddr_cons_pos hsv, ← ih6]

lemma hostAddrs_ok_isSome {subs : List Subnet} {num : Nat}
    {pr : Option IPStr × Option IPStr} (h : hostAddrs subs num = .ok pr) :
    ∀ s ∈ subs, (cidrHost s num).isSome = true := by
  induction subs generalizing pr with
  | nil => intro s hs; simp at hs
  | cons t rest ih =>
    simp only [hostAddrs] at h
    cases hch : cidrHost t num with
    | none => rw [hch] at h; simp at h
    | some a =>
      rw [hch] at h
      cases hrest : hostAddrs rest num with
      | error e => rw [hrest] at h; simp at h
      | ok pr2 =>
        intro s hs
        rcases List.mem_cons.1 hs with heq | hmem
        · subst heq; rw [hch]; rfl
        · exact ih hrest s hmem

lemma hostAddrs_error_shape {subs : List Subnet} {num : Nat} {e : Err}
    (h : hostAddrs subs num = .error e) :
    ∃ s ∈ subs, e = .subnetExhausted s num := by
  induction subs with
  | nil => simp [hostAddrs] at h
  | cons t rest ih =>
    simp only [hostAddrs] at h
    cases hch : cidrHost t num with
    | none =>
      rw [hch] at h
      simp only [Except.error.injEq] at h
      exact ⟨t, by simp, h.symm⟩
    | some a =>
      rw [hch] at h
      cases hrest : hostAddrs rest num with
      | error e2 =>
        rw [hrest] at h
        injection h with he
        subst he
        obtain ⟨s, hs, hse⟩ := ih hrest
        exact ⟨s, by simp [hs], hse⟩
      | ok pr2 =>
        rw [hrest] at h
        cases hsv : t.v4 <;> rw [hsv] at h <;> simp at h

lemma processEndpoints_char {nm : String} {subs : List Subnet}
    {eps : List String} {j : Nat} {ns ns2 : List (String × Node)}
    (h : processEndpoints nm subs eps j ns = .ok ns2) :
    (∀ k, alookup ns k = none → alookup ns2 k = none) ∧
    (∀ k n0, alookup ns k = some n0 →
       alookup ns2 k = some { n0 with
         interfaces := n0.interfaces ++ addedIfaces nm subs eps j k }) ∧
    (∀ k ifc, ifc ∈ addedIfaces nm subs eps j k →
       ifc.link = nm ∧ strStartsWith ifc.name "eth" = true ∧
       ifc.driverOpts = false) := by
  induction eps generalizing j ns with
  | nil =>
    simp only [processEndpoints, Except.ok.injEq] at h
    subst h
    refine ⟨fun k hk => hk, fun k n0 h0 => ?_, fun k ifc hm => ?_⟩
    · simpa [addedIfaces] using h0
    · simp [addedIfaces] at hm
  | cons ep rest ih =>
    simp only [processEndpoints] at h
    rcases hsp : strSplitOn ep ":" with _ | ⟨a, _ | ⟨b, _ | ⟨c, t⟩⟩⟩
    · simp [hsp] at h
    · simp [hsp] at h
    · simp only [hsp] at h
      cases hlook : alookup ns a with
      | none => simp [hlook] at h
      | some n1 =>
        simp only [hlook] at h
        cases hsw : strStartsWith b "eth" with
        | false => rw [if_neg (by simp [hsw])] at h; simp at h
        | true =>
          rw [if_pos hsw] at h
          cases hha : hostAddrs subs (j + 1) with
          | error e => simp [hha] at h
          | ok pr =>
            obtain ⟨v4a, v6a⟩ := pr
            simp only [hha] at h
            obtain ⟨he4, he6⟩ := hostAddrs_ok_eq hha
            subst he4
            subst he6
            obtain ⟨ih1, ih2, ih3⟩ := ih h
            refine ⟨fun k hk => ?_, fun k n0 h0 => ?_, fun k ifc hm => ?_⟩
            · exact ih1 k (alookup_aupdate_none _ hk)
            · by_cases hk : a = k
              · subst hk
                rw [hlook] at h0
                injection h0 with h0e
                subst h0e
                have hupd := alookup_aupdate_self
                  (fun n => { n with interfaces := n.interfaces ++
                    [⟨b, nm, epAddr true subs (j + 1),
                      epAddr false subs (j + 1), false⟩] }) hlook
                have := ih2 a _ hupd
                rw [this]
                simp [addedIfaces, hsp, List.append_assoc]
              · have hlk : alookup (aupdate ns a
                    (fun n => { n with interfaces := n.interfaces ++
                      [⟨b, nm, epAddr true subs (j + 1),
                        epAddr false subs (j + 1), false⟩] })) k
                    = some n0 := by
                  rw [alookup_aupdate_ne _ (fun hcon => hk hcon.symm)]
                  exact h0
                have := ih2 k _ hlk
                rw [this]
                simp [addedIfaces, hsp, hk]
            · simp only [addedIfaces, hsp] at hm
              rcases List.mem_append.1 hm with hhd | htl
              · by_cases hk : a = k
                · rw [if_pos hk] at hhd
                  rcases List.mem_singleton.1 hhd with rfl
                  exact ⟨rfl, hsw, rfl⟩
                · rw [if_neg hk] at hhd
                  simp at hhd
              · exact ih3 k ifc htl
    · simp [hsp] at h

lemma allocate_ok_fields {pool : Option IPStartFrom} {link link2 : Link}
    {pool2 : Option IPStartFrom}
    (h : allocateIPSubnets pool link = .ok (link2, pool2)) :
    link2.name = link.name ∧ link2.endpoints = link.endpoints ∧
    link2.rawSubnets.isSome = true ∧
    ∃ sns, link2.subnets = link.subnets ++ sns ∧
      link2.gateways = link.gateways ++ sns.map gatewayOf ∧
      ∀ s ∈ sns, WFSubnet s := by
  unfold allocateIPSubnets at h
  cases hraw : link.rawSubnets with
  | none =>
    simp only [hraw] at h
    cases pool with
    | none => simp at h
    | some sf =>
      cases hrl : sf.rawLinks with
      | none => simp only [hrl] at h; simp at h
      | some raws =>
        simp only [hrl] at h
        cases hadv : advancePool raws with
        | error e => simp only [hadv] at h; simp at h
        | ok nexts =>
          simp only [hadv] at h
          cases hps : parseSubnets raws with
          | error e => simp only [hps] at h; simp at h
          | ok pr =>
            simp only [hps] at h
            obtain ⟨sns, gws⟩ := pr
            rw [Except.ok.injEq, Prod.mk.injEq] at h
            obtain ⟨h1, h2⟩ := h
            subst h1
            obtain ⟨hpa, hgw⟩ := parseSubnets_char hps
            subst hgw
            exact ⟨rfl, rfl, rfl, sns, rfl, rfl, parseAll_wf hpa⟩
  | some raws =>
    simp only [hraw] at h
    cases hps : parseSubnets raws with
    | error e => simp only [hps] at h; simp at h
    | ok pr =>
      simp only [hps] at h
      obtain ⟨sns, gws⟩ := pr
      rw [Except.ok.injEq, Prod.mk.injEq] at h
      obtain ⟨h1, h2⟩ := h
      subst h1
      obtain ⟨hpa, hgw⟩ := parseSubnets_char hps
      subst hgw
      exact ⟨rfl, rfl, by simp [hraw], sns, rfl, rfl, parseAll_wf hpa⟩

lemma processEndpoints_head_hosts {nm : String} {subs : List Subnet}
    {ep : String} {rest : List String} {j : Nat}
    {ns ns2 : List (String × Node)}
    (h : processEndpoints nm subs (ep :: rest) j ns = .ok ns2) :
    ∀ s ∈ subs, (cidrHost s (j + 1)).isSome = true := by
  simp only [processEndpoints] at h
  rcases hsp : strSplitOn ep ":" with _ | ⟨a, _ | ⟨b, _ | ⟨c, t⟩⟩⟩
  · simp [hsp] at h
  · simp [hsp] at h
  · simp only [hsp] at h
    cases hlook : alookup ns a with
    | none => simp [hlook] at h
    | some n1 =>
      simp only [hlook] at h
      cases hsw : strStartsWith b "eth" with
      | false => rw [if_neg (by simp [hsw])] at h; simp at h
      | true =>
        rw [if_pos hsw] at h
        cases hha : hostAddrs subs (j + 1) with
        | error e => simp [hha] at h
        | ok pr => exact hostAddrs_ok_isSome hha
  · simp [hsp] at h

lemma autoName_ne_empty (x : String) : "golab-link-" ++ x ≠ "" := by
  intro hcon
  have hlen := congrArg String.length hcon
  rw [String.length_append] at hlen
  simp at hlen
  exact absurd hlen.1 (by decide)

lemma processLink_char {ns : List (String × Node)} {pool : Option IPStartFrom}
    {i : Nat} {link l2 : Link} {ns2 : List (String × Node)}
    {pool2 : Option IPStartFrom}
    (h : processLink ns pool i link = .ok (l2, ns2, pool2)) :
    l2.name = (if link.name = "" then "golab-link-" ++ toString (i + 1)
               else link.name) ∧
    l2.name ≠ "" ∧
    l2.endpoints = link.endpoints ∧
    2 ≤ l2.endpoints.length ∧
    (∃ sns, l2.subnets = link.subnets ++ sns ∧
       l2.gateways = link.gateways ++ sns.map gatewayOf ∧
       ∀ s ∈ sns, WFSubnet s) ∧
    (∀ s ∈ l2.subnets, (cidrHost s 1).isSome = true) ∧
    (∀ k, alookup ns k = none → alookup ns2 k = none) ∧
    (∀ k n0, alookup ns k = some n0 →
       alookup ns2 k = some { n0 with
         interfaces := n0.interfaces
           ++ addedIfaces l2.name l2.subnets l2.endpoints 0 k }) ∧
    (∀ k ifc, ifc ∈ addedIfaces l2.name l2.subnets l2.endpoints 0 k →
       ifc.link = l2.name ∧ strStartsWith ifc.name "eth" = true ∧
       ifc.driverOpts = false) := by
  simp only [processLink] at h
  cases halloc : allocateIPSubnets pool
      { link with name := if link.name = "" then
          "golab-link-" ++ toString (i + 1) else link.name } with
  | error e => simp [halloc] at h
  | ok pr =>
    obtain ⟨link2, pool1⟩ := pr
    simp only [halloc] at h
    by_cases hlen : link2.endpoints.length < 2
    · rw [if_pos hlen] at h
      simp at h
    · rw [if_neg hlen] at h
      cases hpe : processEndpoints
          (if link.name = "" then "golab-link-" ++ toString (i + 1)
           else link.name) link2.subnets link2.endpoints 0 ns with
      | error e => simp [hpe] at h
      | ok ns1 =>
        simp only [hpe, Except.ok.injEq, Prod.mk.injEq] at h
        obtain ⟨hl, hns, hpool⟩ := h
        subst hl
        subst hns
        subst hpool
        obtain ⟨hname, hep, _, sns, hsub, hgw, hwf⟩ :=
          allocate_ok_fields halloc
        have hnameIf : link2.name =
            (if link.name = "" then "golab-link-" ++ toString (i + 1)
             else link.name) := hname
        have hepIf : link2.endpoints = link.endpoints := hep
        refine ⟨hnameIf, ?_, hepIf, by omega, ⟨sns, hsub, hgw, hwf⟩,
          ?_, ?_, ?_, ?_⟩
        · rw [hnameIf]
          by_cases hnm : link.name = ""
          · rw [if_pos hnm]
            exact autoName_ne_empty _
          · rw [if_neg hnm]
            exact hnm
        · intro s hs
          cases hE : link2.endpoints with
          | nil => rw [hE] at hlen; simp at hlen
          | cons e erest =>
            rw [hE] at hpe
            exact processEndpoints_head_hosts hpe s hs
        · intro k hk
          exact (processEndpoints_char hpe).1 k hk
        · intro k n0 h0
          rw [hnameIf]
          exact (processEndpoints_char hpe).2.1 k n0 h0
        · intro k ifc hm
          rw [hnameIf] at hm ⊢
          exact (processEndpoints_char hpe).2.2 k ifc hm

lemma stageAdded_nil (k : String) : stageAdded [] k = [] := rfl

lemma stageAdded_cons (l : Link) (rest : List Link) (k : String) :
    stageAdded (l :: rest) k =
      addedIfaces l.name l.subnets l.endpoints 0 k ++ stageAdded rest k := rfl

lemma stage_char {ns : List (String × Node)} {pool : Option IPStartFrom}
    {i : Nat} {links links2 : List Link} {ns2 : List (String × Node)}
    {pool2 : Option IPStartFrom}
    (h : populateLinksStage ns pool i links = .ok (links2, ns2, pool2))
    (hz : ∀ l ∈ links, l.subnets = [] ∧ l.gateways = []) :
    (∀ k, alookup ns k = none → alookup ns2 k = none) ∧
    (∀ k n0, alookup ns k = some n0 →
       alookup ns2 k = some { n0 with
         interfaces := n0.interfaces ++ stageAdded links2 k }) ∧
    (∀ l2 ∈ links2,
       l2.gateways = l2.subnets.map gatewayOf ∧
       (∀ s ∈ l2.subnets, WFSubnet s ∧ (cidrHost s 1).isSome = true) ∧
       2 ≤ l2.endpoints.length ∧ l2.name ≠ "") ∧
    (∀ k ifc, ifc ∈ stageAdded links2 k →
       ifc.link ≠ "" ∧ strStartsWith ifc.name "eth" = true) := by
  induction links generalizing ns pool i links2 with
  | nil =>
    simp only [populateLinksStage, Except.ok.injEq, Prod.mk.injEq] at h
    obtain ⟨h1, h2, h3⟩ := h
    subst h1
    subst h2
    subst h3
    refine ⟨fun k hk => hk, fun k n0 h0 => by simpa [stageAdded_nil] using h0,
      fun l2 hm => by simp at hm, fun k ifc hm => by simp [stageAdded_nil] at hm⟩
  | cons l rest ih =>
    simp only [populateLinksStage] at h
    cases hpl : processLink ns pool i l with
    | error e => simp [hpl] at h
    | ok pr =>
      obtain ⟨l1, ns1, pool1⟩ := pr
      simp only [hpl] at h
      cases hrest : populateLinksStage ns1 pool1 (i + 1) rest with
      | error e => simp [hrest] at h
      | ok pr2 =>
        obtain ⟨rest1, nsb, poolb⟩ := pr2
        simp only [hrest, Except.ok.injEq, Prod.mk.injEq] at h
        obtain ⟨h1, h2, h3⟩ := h
        subst h1
        subst h2
        subst h3
        obtain ⟨hname, hne, hep, hlen2, ⟨sns, hsub, hgw, hwf⟩, hhost1,
          hnone1, hsome1, hifc1⟩ := processLink_char hpl
        obtain ⟨ihnone, ihsome, ihlink, ihifc⟩ :=
          ih hrest (fun l2 hm => hz l2 (List.mem_cons_of_mem _ hm))
        obtain ⟨hzs, hzg⟩ := hz l (by simp)
        rw [hzs] at hsub
        rw [hzg] at hgw
        simp only [List.nil_append] at hsub hgw
        refine ⟨fun k hk => ihnone k (hnone1 k hk), fun k n0 h0 => ?_,
          fun l2 hm => ?_, fun k ifc hm => ?_⟩
        · have hstep := hsome1 k n0 h0
          have := ihsome k _ hstep
          rw [this, stageAdded_cons]
          simp [List.append_assoc]
        · rcases List.mem_cons.1 hm with rfl | hm2
          · refine ⟨by rw [hsub, hgw], fun s hs => ?_, hlen2, hne⟩
            rw [hsub] at hs
            exact ⟨hwf s hs, hhost1 s (by rw [hsub]; exact hs)⟩
          · exact ihlink l2 hm2
        · rw [stageAdded_cons] at hm
          rcases List.mem_append.1 hm with hm1 | hm2
          · obtain ⟨hl1, hsw, _⟩ := hifc1 k ifc hm1
            rw [hl1]
            exact ⟨hne, hsw⟩
          · exact ihifc k ifc hm2

lemma charListLe_total : ∀ a b : List Char,
    charListLe a b = true ∨ charListLe b a = true := by
  intro a
  induction a with
  | nil => intro b; left; rfl
  | cons x as ih =>
    intro b
    cases b with
    | nil => right; rfl
    | cons y bs =>
      by_cases h1 : x < y
      · left; simp [charListLe, h1]
      · by_cases h2 : y < x
        · right; simp [charListLe, h2]
        · rcases ih bs with h | h
          · left; simp [charListLe, h1, h2, h]
          · right; simp [charListLe, h1, h2, h]

lemma charListLe_trans : ∀ a b c : List Char,
    charListLe a b = true → charListLe b c = true →
    charListLe a c = true := by
  intro a
  induction a with
  | nil => intro b c _ _; rfl
  | cons x as ih =>
    intro b c hab hbc
    cases b with
    | nil => simp [charListLe] at hab
    | cons y bs =>
      cases c with
      | nil => simp [charListLe] at hbc
      | cons z cs =>
        by_cases hxy : x < y
        · by_cases hyz : y < z
          · simp [charListLe, lt_trans hxy hyz]
          · by_cases hzy : z < y
            · simp only [charListLe, if_pos hyz] at hbc
              simp [if_neg hyz, hzy] at hbc
            · have hyz2 : y = z := le_antisymm (not_lt.1 hzy) (not_lt.1 hyz)
              subst hyz2
              simp [charListLe, hxy]
        · by_cases hyx : y < x
          · simp [charListLe, hxy, hyx] at hab
          · have hxy2 : x = y := le_antisymm (not_lt.1 hyx) (not_lt.1 hxy)
            subst hxy2
            simp only [charListLe, if_neg hxy, if_neg hyx] at hab
            by_cases hyz : x < z
            · simp [charListLe, hyz]
            · by_cases hzy : z < x
              · simp [charListLe, hyz, hzy] at hbc
              · simp only [charListLe, if_neg hyz, if_neg hzy] at hbc ⊢
                exact ih bs cs hab hbc

lemma charListLe_antisymm : ∀ a b : List Char,
    charListLe a b = true → charListLe b a = true → a = b := by
  intro a
  induction a with
  | nil =>
    intro b _ hba
    cases b with
    | nil => rfl
    | cons y bs => simp [charListLe] at hba
  | cons x as ih =>
    intro b hab hba
    cases b with
    | nil => simp [charListLe] at hab
    | cons y bs =>
      by_cases hxy : x < y
      · simp [charListLe, hxy, asymm hxy] at hba
      · by_cases hyx : y < x
        · simp [charListLe, hxy, hyx] at hab
        · have hxy2 : x = y := le_antisymm (not_lt.1 hyx) (not_lt.1 hxy)
          subst hxy2
          simp only [charListLe, if_neg hxy, if_neg hyx] at hab hba
          rw [ih bs hab hba]

lemma strLe_antisymm {a b : String} (h1 : strLe a b = true)
    (h2 : strLe b a = true) : a = b := by
  cases a with
  | mk la =>
    cases b with
    | mk lb =>
      unfold strLe at h1 h2
      rw [charListLe_antisymm la lb h1 h2]

lemma entIsTotal {α : Type} :
    IsTotal (String × α) (fun a b => strLe a.1 b.1 = true) :=
  ⟨fun a b => charListLe_total a.1.data b.1.data⟩

lemma entIsTrans {α : Type} :
    IsTrans (String × α) (fun a b => strLe a.1 b.1 = true) :=
  ⟨fun _ _ _ h1 h2 => charListLe_trans _ _ _ h1 h2⟩

lemma entLtAntisymm {α : Type} :
    IsAntisymm (String × α)
      (fun a b => strLe a.1 b.1 = true ∧ a.1 ≠ b.1) :=
  ⟨fun _ _ h1 h2 => absurd (strLe_antisymm h1.1 h2.1) h1.2⟩

lemma sortByKey_perm {α : Type} (l : List (String × α)) :
    (sortByKey l).Perm l :=
  List.perm_insertionSort _ l

lemma sortByKey_eq_of_perm {α : Type} {l1 l2 : List (String × α)}
    (hp : l1.Perm l2) (hnd : (l1.map Prod.fst).Nodup) :
    sortByKey l1 = sortByKey l2 := by
  haveI := @entIsTotal α
  haveI := @entIsTrans α
  haveI := @entLtAntisymm α
  have hp2 : (sortByKey l1).Perm (sortByKey l2) :=
    ((sortByKey_perm l1).trans hp).trans (sortByKey_perm l2).symm
  have hs1 : (sortByKey l1).Pairwise (fun a b => strLe a.1 b.1 = true) :=
    List.sorted_insertionSort _ l1
  have hs2 : (sortByKey l2).Pairwise (fun a b => strLe a.1 b.1 = true) :=
    List.sorted_insertionSort _ l2
  have hnd1 : ((sortByKey l1).map Prod.fst).Nodup :=
    (((sortByKey_perm l1).map Prod.fst).nodup_iff).2 hnd
  have hnd2 : ((sortByKey l2).map Prod.fst).Nodup :=
    ((hp2.map Prod.fst).nodup_iff).1 hnd1
  have hne1 : (sortByKey l1).Pairwise (fun a b => a.1 ≠ b.1) :=
    List.pairwise_map.1 hnd1
  have hne2 : (sortByKey l2).Pairwise (fun a b => a.1 ≠ b.1) :=
    List.pairwise_map.1 hnd2
  have hlt1 : (sortByKey l1).Pairwise
      (fun a b => strLe a.1 b.1 = true ∧ a.1 ≠ b.1) :=
    (hs1.and hne1).imp (fun h => ⟨h.1, h.2⟩)
  have hlt2 : (sortByKey l2).Pairwise
      (fun a b => strLe a.1 b.1 = true ∧ a.1 ≠ b.1) :=
    (hs2.and hne2).imp (fun h => ⟨h.1, h.2⟩)
  exact List.eq_of_perm_of_sorted hp2 hlt1 hlt2

lemma alookup_none_iff {α : Type} {l : List (String × α)} {k : String} :
    alookup l k = none ↔ k ∉ l.map Prod.fst := by
  induction l with
  | nil => simp [alookup]
  | cons kv rest ih =>
    by_cases hk : kv.1 = k
    · simp [alookup, hk]
    · simp only [alookup, if_neg hk, List.map_cons, List.mem_cons]
      rw [ih]
      constructor
      · rintro hno (hc | hc)
        · exact hk hc.symm
        · exact hno hc
      · intro hno hc
        exact hno (Or.inr hc)

lemma setLoopAddrs_fields {ifc0 ifc : Iface} {loops : List IPStr}
    (h : setLoopAddrs ifc0 loops = .ok ifc) :
    ifc.name = ifc0.name ∧ ifc.link = ifc0.link ∧
    ifc.driverOpts = ifc0.driverOpts := by
  induction loops generalizing ifc0 with
  | nil =>
    simp only [setLoopAddrs, Except.ok.injEq] at h
    subst h
    exact ⟨rfl, rfl, rfl⟩
  | cons addr rest ih =>
    simp only [setLoopAddrs] at h
    cases hp : parseCIDR addr with
    | none => simp [hp] at h
    | some pr =>
      simp only [hp] at h
      cases hv : pr.2.v4 with
      | true =>
        rw [if_pos hv] at h
        have hres := ih h
        exact hres
      | false =>
        rw [if_neg (by simp [hv])] at h
        have hres := ih h
        exact hres

lemma populateProtocols_fields {n n3 : Node}
    (h : populateProtocols n = .ok n3) :
    n3.interfaces = n.interfaces ∧ n3.loopbacks = n.loopbacks ∧
    n3.name = n.name ∧ n3.vendor = n.vendor := by
  unfold populateProtocols at h
  by_cases he : n.enable.isEmpty
  · rw [if_pos he] at h
    rw [Except.ok.injEq] at h
    subst h
    exact ⟨rfl, rfl, rfl, rfl⟩
  · rw [if_neg he] at h
    cases hap : applyEnable n.name ⟨false, false, false, false, false⟩
        n.enable with
    | error e => simp [hap] at h
    | ok p =>
      simp only [hap, Except.ok.injEq] at h
      subst h
      exact ⟨rfl, rfl, rfl, rfl⟩

lemma populateLoopbacks_char {pool : Option IPStartFrom} {n n1 : Node}
    {pool1 : Option IPStartFrom}
    (h : populateLoopbacks pool n = .ok (n1, pool1)) :
    poolLoopsB pool1 = poolLoopsB pool ∧
    ((n.loopbacks.isSome = true ∨ poolLoopsB pool = true) →
       ∃ ifc, n1.interfaces = n.interfaces ++ [ifc] ∧
         ifc.name = "lo" ∧ ifc.link = "") ∧
    ((n.loopbacks = none ∧ poolLoopsB pool = false) →
       n1 = n ∧ pool1 = pool) := by
  unfold populateLoopbacks at h
  cases hlb : n.loopbacks with
  | none =>
    simp only [hlb] at h
    cases pool with
    | none =>
      rw [Except.ok.injEq, Prod.mk.injEq] at h
      obtain ⟨h1, h2⟩ := h
      subst h1
      subst h2
      refine ⟨rfl, fun hc => ?_, fun _ => ⟨rfl, rfl⟩⟩
      rcases hc with hc | hc
      · simp at hc
      · simp [poolLoopsB] at hc
    | some sf =>
      cases hrl : sf.rawLoopbacks with
      | none =>
        simp only [hrl] at h
        rw [Except.ok.injEq, Prod.mk.injEq] at h
        obtain ⟨h1, h2⟩ := h
        subst h1
        subst h2
        refine ⟨rfl, fun hc => ?_, fun _ => ⟨rfl, rfl⟩⟩
        rcases hc with hc | hc
        · simp at hc
        · simp [poolLoopsB, hrl] at hc
      | some raws =>
        simp only [hrl] at h
        cases hadv : advancePool raws with
        | error e => simp [hadv] at h
        | ok nexts =>
          simp only [hadv] at h
          unfold attachLo at h
          cases hset : setLoopAddrs loIfaceBase raws with
          | error e => simp [hset] at h
          | ok ifc =>
            simp only [hset, Except.ok.injEq, Prod.mk.injEq] at h
            obtain ⟨h1, h2⟩ := h
            subst h1
            subst h2
            obtain ⟨hn, hl, _⟩ := setLoopAddrs_fields hset
            refine ⟨by simp [poolLoopsB, hrl], fun _ => ⟨ifc, rfl, hn, hl⟩,
              fun hc => ?_⟩
            simp [poolLoopsB, hrl] at hc
  | some loops =>
    simp only [hlb] at h
    unfold attachLo at h
    cases hset : setLoopAddrs loIfaceBase loops with
    | error e => simp [hset] at h
    | ok ifc =>
      simp only [hset, Except.ok.injEq, Prod.mk.injEq] at h
      obtain ⟨h1, h2⟩ := h
      subst h1
      subst h2
      obtain ⟨hn, hl, _⟩ := setLoopAddrs_fields hset
      refine ⟨rfl, fun _ => ⟨ifc, rfl, hn, hl⟩, fun hc => ?_⟩
      simp at hc

lemma populateNode_char {pwd name : String} {n : Node}
    {pool : Option IPStartFrom} {n1 : Node} {pool1 : Option IPStartFrom}
    (h : populateNode pwd name n pool = .ok (n1, pool1)) :
    poolLoopsB pool1 = poolLoopsB pool ∧
    ((n.loopbacks.isSome = true ∨ poolLoopsB pool = true) →
       ∃ ifc, n1.interfaces = n.interfaces ++ [ifc] ∧
         ifc.name = "lo" ∧ ifc.link = "") ∧
    ((n.loopbacks = none ∧ poolLoopsB pool = false) →
       n1.interfaces = n.interfaces) := by
  unfold populateNode at h
  cases hb : populateBinds pwd (detectByImage n.image) n.binds with
  | error e => simp [hb] at h
  | ok bs =>
    simp only [hb] at h
    cases hpp : populateProtocols { n with name := name, vendor := detectByImage n.image, binds := bs } with
    | error e => simp [hpp] at h
    | ok n3 =>
      simp only [hpp] at h
      obtain ⟨hif3, hlb3, _, _⟩ := populateProtocols_fields hpp
      obtain ⟨hpl, hsome, hnone⟩ := populateLoopbacks_char h
      have hif3e : n3.interfaces = n.interfaces := hif3
      have hlb3e : n3.loopbacks = n.loopbacks := hlb3
      refine ⟨hpl, fun hc => ?_, fun hc => ?_⟩
      · obtain ⟨ifc, hi, hn2, hl2⟩ := hsome (by rw [hlb3e]; exact hc)
        exact ⟨ifc, by rw [hi, hif3e], hn2, hl2⟩
      · obtain ⟨hn1, _⟩ := hnone (by rw [hlb3e]; exact ⟨hc.1, hc.2⟩)
        rw [hn1, hif3e]

lemma populateNodesGo_char {pwd : String}
    {entries : List (String × Option Node)} {pool : Option IPStartFrom}
    {out : List (String × Node)} {pool2 : Option IPStartFrom}
    (h : populateNodesGo pwd entries pool = .ok (out, pool2)) :
    out.map Prod.fst = entries.map Prod.fst ∧
    poolLoopsB pool2 = poolLoopsB pool ∧
    (∀ k nd, alookup out k = some nd →
       ∃ n0 poolA poolB, alookup entries k = some (some n0) ∧
         populateNode pwd k n0 poolA = .ok (nd, poolB) ∧
         poolLoopsB poolA = poolLoopsB pool) := by
  induction entries generalizing pool out with
  | nil =>
    simp only [populateNodesGo, Except.ok.injEq, Prod.mk.injEq] at h
    obtain ⟨h1, h2⟩ := h
    subst h1
    subst h2
    exact ⟨rfl, rfl, fun k nd hk => by simp [alookup] at hk⟩
  | cons ent rest ih =>
    obtain ⟨name, optN⟩ := ent
    cases optN with
    | none => simp [populateNodesGo] at h
    | some n =>
      simp only [populateNodesGo] at h
      by_cases himg : n.image = ""
      · rw [if_pos himg] at h
        simp at h
      · rw [if_neg himg] at h
        cases hpn : populateNode pwd name n pool with
        | error e => simp [hpn] at h
        | ok pr =>
          obtain ⟨nn, poolm⟩ := pr
          simp only [hpn] at h
          cases hrest : populateNodesGo pwd rest poolm with
          | error e => simp [hrest] at h
          | ok pr2 =>
            obtain ⟨rest1, poolr⟩ := pr2
            simp only [hrest, Except.ok.injEq, Prod.mk.injEq] at h
            obtain ⟨h1, h2⟩ := h
            subst h1
            subst h2
            obtain ⟨ihk, ihp, ihn⟩ := ih hrest
            obtain ⟨hinv, _, _⟩ := populateNode_char hpn
            refine ⟨by simp [ihk], by rw [ihp, hinv], fun k nd hk => ?_⟩
            by_cases hkn : name = k
            · subst hkn
              simp [alookup] at hk
              subst hk
              exact ⟨n, pool, poolm, by simp [alookup], hpn, rfl⟩
            · simp only [alookup, if_neg hkn] at hk
              obtain ⟨n0, poolA, poolB, hlk, hpn2, hplb⟩ := ihn k nd hk
              exact ⟨n0, poolA, poolB, by simp [alookup, hkn, hlk],
                hpn2, by rw [hplb, hinv]⟩

lemma alookup_some_mem {α : Type} {l : List (String × α)} {k : String}
    {v : α} (h : alookup l k = some v) : (k, v) ∈ l := by
  induction l with
  | nil => simp [alookup] at h
  | cons kv rest ih =>
    by_cases hk : kv.1 = k
    · simp only [alookup, if_pos hk, Option.some.injEq] at h
      subst h
      subst hk
      simp
    · simp only [alookup, if_neg hk] at h
      exact List.mem_cons_of_mem _ (ih h)

lemma alookup_isSome_of_mem_keys {α : Type} {l : List (String × α)}
    {k : String} (h : k ∈ l.map Prod.fst) : (alookup l k).isSome = true := by
  cases hres : alookup l k with
  | none => exact absurd h (alookup_none_iff.1 hres)
  | some v => rfl

lemma alookup_mapValues {α β : Type} (g : α → β)
    (l : List (String × α)) (k : String) :
    alookup (l.map (fun kv => (kv.1, g kv.2))) k = (alookup l k).map g := by
  induction l with
  | nil => rfl
  | cons kv rest ih =>
    by_cases hk : kv.1 = k
    · simp [alookup, hk]
    · simp [alookup, hk, ih]

lemma addedIfaces_link_eq {nm : String} {subs : List Subnet} :
    ∀ {eps : List String} {j : Nat} {k : String} {ifc : Iface},
      ifc ∈ addedIfaces nm subs eps j k → ifc.link = nm := by
  intro eps
  induction eps with
  | nil => intro j k ifc hm; simp [addedIfaces] at hm
  | cons ep rest ih =>
    intro j k ifc hm
    simp only [addedIfaces] at hm
    rcases List.mem_append.1 hm with hhd | htl
    · rcases hsp : strSplitOn ep ":" with _ | ⟨a, _ | ⟨b, _ | ⟨c, t⟩⟩⟩ <;>
        rw [hsp] at hhd <;> simp at hhd
      obtain ⟨_, hife⟩ := hhd
      rw [hife]
    · exact ih htl

lemma addedIfaces_mem_of_get {nm : String} {subs : List Subnet} :
    ∀ {eps : List String} {j d : Nat} (hd : d < eps.length)
      {k ifn : String},
      strSplitOn (eps.get ⟨d, hd⟩) ":" = [k, ifn] →
      (⟨ifn, nm, epAddr true subs (j + d + 1), epAddr false subs (j + d + 1),
        false⟩ : Iface) ∈ addedIfaces nm subs eps j k := by
  intro eps
  induction eps with
  | nil => intro j d hd k ifn hsp; simp at hd
  | cons ep rest ih =>
    intro j d hd k ifn hsp
    cases d with
    | zero =>
      simp only [List.get] at hsp
      simp only [addedIfaces, hsp, if_pos rfl]
      simp [Nat.add_zero]
    | succ d2 =>
      simp only [List.get] at hsp
      have hd2 : d2 < rest.length := by
        simp at hd
        omega
      have hmem := ih (j := j + 1) hd2 hsp
      simp only [addedIfaces]
      apply List.mem_append_right
      have harith : j + 1 + d2 + 1 = j + (d2 + 1) + 1 := by omega
      rw [harith] at hmem
      exact hmem

lemma filter_link_map_sig (l : List Iface) (nm : String) :
    ((l.filter (fun ifc => ifc.link = nm)).map ifaceSig)
      = (l.map ifaceSig).filter (fun t => t.2.1 = nm) := by
  induction l with
  | nil => rfl
  | cons ifc rest ih =>
    by_cases hl : ifc.link = nm
    · simp [List.filter_cons, hl, ifaceSig, ih]
    · simp [List.filter_cons, hl, ifaceSig, ih]

lemma filter_name_map_sig (l : List Iface) (nm : String) :
    ((l.filter (fun ifc => ifc.name = nm)).map ifaceSig)
      = (l.map ifaceSig).filter (fun t => t.1 = nm) := by
  induction l with
  | nil => rfl
  | cons ifc rest ih =>
    by_cases hl : ifc.name = nm
    · simp [List.filter_cons, hl, ifaceSig, ih]
    · simp [List.filter_cons, hl, ifaceSig, ih]

lemma sysctlNode_sig (n : Node) :
    (sysctlNode n).interfaces.map ifaceSig = n.interfaces.map ifaceSig := by
  unfold sysctlNode
  by_cases hv : n.vendor = .frr
  · rw [if_pos hv]
    by_cases hl : protoLdpIsNo n = true
    · rw [if_pos hl]
    · rw [if_neg hl]
      simp only [List.map_map]
      apply List.map_congr_left
      intro ifc _
      by_cases hn : ifc.name = "lo" <;>
        simp [Function.comp, hn, ifaceSig]
  · rw [if_neg hv]

lemma processEndpoints_keys {nm : String} {subs : List Subnet}
    {eps : List String} {j : Nat} {ns ns2 : List (String × Node)}
    (h : processEndpoints nm subs eps j ns = .ok ns2) :
    ns2.map Prod.fst = ns.map Prod.fst := by
  induction eps generalizing j ns with
  | nil =>
    simp only [processEndpoints, Except.ok.injEq] at h
    subst h
    rfl
  | cons ep rest ih =>
    simp only [processEndpoints] at h
    rcases hsp : strSplitOn ep ":" with _ | ⟨a, _ | ⟨b, _ | ⟨c, t⟩⟩⟩
    · simp [hsp] at h
    · simp [hsp] at h
    · simp only [hsp] at h
      cases hlook : alookup ns a with
      | none => simp [hlook] at h
      | some n1 =>
        simp only [hlook] at h
        cases hsw : strStartsWith b "eth" with
        | false => rw [if_neg (by simp [hsw])] at h; simp at h
        | true =>
          rw [if_pos hsw] at h
          cases hha : hostAddrs subs (j + 1) with
          | error e => simp [hha] at h
          | ok pr =>
            simp only [hha] at h
            rw [ih h, aupdate_keys]
    · simp [hsp] at h

lemma processEndpoints_eps {nm : String} {subs : List Subnet}
    {eps : List String} {j : Nat} {ns ns2 : List (String × Node)}
    (h : processEndpoints nm subs eps j ns = .ok ns2) :
    ∀ ep ∈ eps, ∃ a b, strSplitOn ep ":" = [a, b] ∧
      a ∈ ns.map Prod.fst ∧ strStartsWith b "eth" = true := by
  induction eps generalizing j ns with
  | nil => intro ep hm; simp at hm
  | cons ep0 rest ih =>
    simp only [processEndpoints] at h
    rcases hsp : strSplitOn ep0 ":" with _ | ⟨a, _ | ⟨b, _ | ⟨c, t⟩⟩⟩
    · simp [hsp] at h
    · simp [hsp] at h
    · simp only [hsp] at h
      cases hlook : alookup ns a with
      | none => simp [hlook] at h
      | some n1 =>
        simp only [hlook] at h
        cases hsw : strStartsWith b "eth" with
        | false => rw [if_neg (by simp [hsw])] at h; simp at h
        | true =>
          rw [if_pos hsw] at h
          cases hha : hostAddrs subs (j + 1) with
          | error e => simp [hha] at h
          | ok pr =>
            simp only [hha] at h
            intro ep hm
            rcases List.mem_cons.1 hm with rfl | hm2
            · refine ⟨a, b, hsp, ?_, hsw⟩
              have : (a, n1) ∈ ns := alookup_some_mem hlook
              exact List.mem_map.2 ⟨(a, n1), this, rfl⟩
            · obtain ⟨a2, b2, hsp2, hmem2, hsw2⟩ := ih h ep hm2
              rw [aupdate_keys] at hmem2
              exact ⟨a2, b2, hsp2, hmem2, hsw2⟩
    · simp [hsp] at h

lemma processLink_keys_eps {ns : List (String × Node)}
    {pool : Option IPStartFrom} {i : Nat} {link l2 : Link}
    {ns2 : List (String × Node)} {pool2 : Option IPStartFrom}
    (h : processLink ns pool i link = .ok (l2, ns2, pool2)) :
    ns2.map Prod.fst = ns.map Prod.fst ∧
    ∀ ep ∈ l2.endpoints, ∃ a b, strSplitOn ep ":" = [a, b] ∧
      a ∈ ns.map Prod.fst ∧ strStartsWith b "eth" = true := by
  simp only [processLink] at h
  cases halloc : allocateIPSubnets pool
      { link with name := if link.name = "" then
          "golab-link-" ++ toString (i + 1) else link.name } with
  | error e => simp [halloc] at h
  | ok pr =>
    obtain ⟨link2, pool1⟩ := pr
    simp only [halloc] at h
    by_cases hlen : link2.endpoints.length < 2
    · rw [if_pos hlen] at h
      simp at h
    · rw [if_neg hlen] at h
      cases hpe : processEndpoints
          (if link.name = "" then "golab-link-" ++ toString (i + 1)
           else link.name) link2.subnets link2.endpoints 0 ns with
      | error e => simp [hpe] at h
      | ok ns1 =>
        simp only [hpe, Except.ok.injEq, Prod.mk.injEq] at h
        obtain ⟨hl, hns, hpool⟩ := h
        subst hl
        subst hns
        subst hpool
        exact ⟨processEndpoints_keys hpe, processEndpoints_eps hpe⟩

lemma stage_keys_eps {ns : List (String × Node)} {pool : Option IPStartFrom}
    {i : Nat} {links links2 : List Link} {ns2 : List (String × Node)}
    {pool2 : Option IPStartFrom}
    (h : populateLinksStage ns pool i links = .ok (links2, ns2, pool2)) :
    ns2.map Prod.fst = ns.map Prod.fst ∧
    ∀ l2 ∈ links2, ∀ ep ∈ l2.endpoints, ∃ a b, strSplitOn ep ":" = [a, b] ∧
      a ∈ ns.map Prod.fst ∧ strStartsWith b "eth" = true := by
  induction links generalizing ns pool i links2 with
  | nil =>
    simp only [populateLinksStage, Except.ok.injEq, Prod.mk.injEq] at h
    obtain ⟨h1, h2, h3⟩ := h
    subst h1
    subst h2
    subst h3
    exact ⟨rfl, fun l2 hm => by simp at hm⟩
  | cons l rest ih =>
    simp only [populateLinksStage] at h
    cases hpl : processLink ns pool i l with
    | error e => simp [hpl] at h
    | ok pr =>
      obtain ⟨l1, ns1, pool1⟩ := pr
      simp only [hpl] at h
      cases hrest : populateLinksStage ns1 pool1 (i + 1) rest with
      | error e => simp [hrest] at h
      | ok pr2 =>
        obtain ⟨rest1, nsb, poolb⟩ := pr2
        simp only [hrest, Except.ok.injEq, Prod.mk.injEq] at h
        obtain ⟨h1, h2, h3⟩ := h
        subst h1
        subst h2
        subst h3
        obtain ⟨hk1, hep1⟩ := processLink_keys_eps hpl
        obtain ⟨ihk, ihep⟩ := ih hrest
        refine ⟨by rw [ihk, hk1], fun l2 hm => ?_⟩
        rcases List.mem_cons.1 hm with rfl | hm2
        · exact hep1
        · intro ep hmep
          obtain ⟨a, b, hsp2, hmem2, hsw2⟩ := ihep l2 hm2 ep hmep
          rw [hk1] at hmem2
          exact ⟨a, b, hsp2, hmem2, hsw2⟩

lemma alookup_eq_some_of_mem {α : Type} {l : List (String × α)}
    {k : String} {v : α} (hnd : (l.map Prod.fst).Nodup)
    (hm : (k, v) ∈ l) : alookup l k = some v := by
  induction l with
  | nil => simp at hm
  | cons kv rest ih =>
    simp only [List.map_cons, List.nodup_cons] at hnd
    by_cases hk : kv.1 = k
    · rcases List.mem_cons.1 hm with heq | hmem
      · rw [← heq]
        simp [alookup]
      · exfalso
        apply hnd.1
        rw [hk]
        exact List.mem_map.2 ⟨(k, v), hmem, rfl⟩
    · simp only [alookup, if_neg hk]
      rcases List.mem_cons.1 hm with heq | hmem
      · exfalso
        apply hk
        rw [← heq]
      · exact ih hnd.2 hmem

lemma alookup_eq_of_perm {α : Type} {l1 l2 : List (String × α)}
    (hp : l1.Perm l2) (hnd : (l1.map Prod.fst).Nodup) (k : String) :
    alookup l1 k = alookup l2 k := by
  have hnd2 : (l2.map Prod.fst).Nodup := ((hp.map Prod.fst).nodup_iff).1 hnd
  cases h1 : alookup l1 k with
  | none =>
    symm
    rw [alookup_none_iff]
    intro hc
    apply alookup_none_iff.1 h1
    exact ((hp.map Prod.fst).mem_iff).2 hc
  | some v =>
    symm
    exact alookup_eq_some_of_mem hnd2 (hp.subset (alookup_some_mem h1))

lemma mapValues_keys {α β : Type} (g : α → β) (l : List (String × α)) :
    (l.map (fun kv => (kv.1, g kv.2))).map Prod.fst = l.map Prod.fst := by
  induction l with
  | nil => rfl
  | cons kv rest ih => simp [ih]

lemma populate_char {pwd : String} {t : Topology} {pt : PopTopology}
    (hok : populate pwd t = .ok pt)
    (hnd : (t.nodes.map Prod.fst).Nodup)
    (hnz : ∀ kv ∈ t.nodes, ∀ n, kv.2 = some n →
       n.interfaces = ([] : List Iface))
    (hlz : ∀ l ∈ t.links, l.subnets = ([] : List Subnet) ∧
       l.gateways = ([] : List Nat)) :
    (∀ l2 ∈ pt.links,
       l2.gateways = l2.subnets.map gatewayOf ∧
       (∀ s ∈ l2.subnets, WFSubnet s ∧ (cidrHost s 1).isSome = true) ∧
       2 ≤ l2.endpoints.length ∧ l2.name ≠ "") ∧
    pt.nodes.map Prod.fst = (sortByKey t.nodes).map Prod.fst ∧
    (∀ l2 ∈ pt.links, ∀ ep ∈ l2.endpoints, ∃ a b,
       strSplitOn ep ":" = [a, b] ∧ a ∈ pt.nodes.map Prod.fst ∧
       strStartsWith b "eth" = true) ∧
    (∀ k nd, alookup pt.nodes k = some nd →
       ∃ n0 loIfs,
         alookup t.nodes k = some (some n0) ∧
         nd.interfaces.map ifaceSig
           = (loIfs ++ stageAdded pt.links k).map ifaceSig ∧
         ((n0.loopbacks.isSome = true ∨ poolLoopsB t.ipStartFrom = true) →
            ∃ ifc, loIfs = [ifc] ∧ ifc.name = "lo" ∧ ifc.link = "") ∧
         ((n0.loopbacks = none ∧ poolLoopsB t.ipStartFrom = false) →
            loIfs = []) ∧
         (∀ ifc ∈ stageAdded pt.links k,
            ifc.link ≠ "" ∧ strStartsWith ifc.name "eth" = true)) := by
  unfold populate at hok
  cases hstage1 : populateNodesStage pwd t.nodes t.ipStartFrom with
  | error e => simp [hstage1] at hok
  | ok pr1 =>
    obtain ⟨ns, pool1⟩ := pr1
    simp only [hstage1] at hok
    cases hstage2 : populateLinksStage ns pool1 0 t.links with
    | error e => simp [hstage2] at hok
    | ok pr2 =>
      obtain ⟨links1, ns1, pool2⟩ := pr2
      simp only [hstage2, Except.ok.injEq] at hok
      subst hok
      unfold populateNodesStage at hstage1
      by_cases hemp : t.nodes.isEmpty
      · rw [if_pos hemp] at hstage1
        simp at hstage1
      · rw [if_neg hemp] at hstage1
        obtain ⟨hkeysGo, _, hlookGo⟩ := populateNodesGo_char hstage1
        obtain ⟨hsnone, hssome, hslink, hsifc⟩ := stage_char hstage2 hlz
        obtain ⟨hskeys, hseps⟩ := stage_keys_eps hstage2
        have hptkeys : (populateSysctlsStage ns1).map Prod.fst
            = (sortByKey t.nodes).map Prod.fst := by
          unfold populateSysctlsStage
          rw [mapValues_keys, hskeys, hkeysGo]
        refine ⟨hslink, hptkeys, ?_, ?_⟩
        · intro l2 hm ep hmep
          obtain ⟨a, b, hsp, hmem, hsw⟩ := hseps l2 hm ep hmep
          refine ⟨a, b, hsp, ?_, hsw⟩
          rw [hptkeys, ← hkeysGo]
          exact hmem
        · intro k nd hlook
          unfold populateSysctlsStage at hlook
          rw [alookup_mapValues] at hlook
          cases hlk1 : alookup ns1 k with
          | none => rw [hlk1] at hlook; simp at hlook
          | some ndb =>
            rw [hlk1] at hlook
            simp only [Option.map_some', Option.some.injEq] at hlook
            cases hlkns : alookup ns k with
            | none =>
              rw [hsnone k hlkns] at hlk1
              simp at hlk1
            | some nb =>
              rw [hssome k nb hlkns] at hlk1
              injection hlk1 with hndb
              obtain ⟨n0, poolA, poolB, hlksort, hpn, hplA⟩ :=
                hlookGo k nb hlkns
              have hlkt : alookup t.nodes k = some (some n0) := by
                rw [alookup_eq_of_perm (sortByKey_perm t.nodes).symm hnd k]
                exact hlksort
              have hn0z : n0.interfaces = [] :=
                hnz (k, some n0) (alookup_some_mem hlkt) n0 rfl
              obtain ⟨_, hcond, hncond⟩ := populateNode_char hpn
              refine ⟨n0, nb.interfaces, hlkt, ?_, ?_, ?_, hsifc k⟩
              · rw [← hlook, sysctlNode_sig, ← hndb]
              · intro hc
                obtain ⟨ifc, hi, hn2, hl2⟩ := hcond (by
                  rcases hc with hc | hc
                  · exact Or.inl hc
                  · exact Or.inr (by rw [hplA]; exact hc))
                exact ⟨ifc, by rw [hi, hn0z, List.nil_append], hn2, hl2⟩
              · intro hc
                rw [hncond ⟨hc.1, by rw [hplA]; exact hc.2⟩]
                exact hn0z

lemma advancePool_ok_parseAll {raws : List IPStr} {out : List IPStr}
    (h : advancePool raws = .ok out) : ∃ sns, parseAll raws = some sns := by
  induction raws generalizing out with
  | nil => exact ⟨[], rfl⟩
  | cons r rest ih =>
    simp only [advancePool] at h
    cases hr : parseCIDR r with
    | none => rw [hr] at h; simp at h
    | some pr =>
      rw [hr] at h
      cases hrest : advancePool rest with
      | error e => rw [hrest] at h; simp at h
      | ok out1 =>
        obtain ⟨sns1, hsns1⟩ := ih hrest
        exact ⟨pr.2 :: sns1, by
          simp only [parseAll, hr, hsns1, Option.map_some']⟩

lemma populate_ok_elim {pwd : String} {t : Topology} {pt : PopTopology}
    (hok : populate pwd t = .ok pt) :
    ∃ ns pool1 ns1 pool2,
      populateNodesGo pwd (sortByKey t.nodes) t.ipStartFrom
        = .ok (ns, pool1) ∧
      populateLinksStage ns pool1 0 t.links = .ok (pt.links, ns1, pool2) ∧
      pt.nodes = populateSysctlsStage ns1 := by
  unfold populate at hok
  cases hstage1 : populateNodesStage pwd t.nodes t.ipStartFrom with
  | error e => simp [hstage1] at hok
  | ok pr1 =>
    obtain ⟨ns, pool1⟩ := pr1
    simp only [hstage1] at hok
    cases hstage2 : populateLinksStage ns pool1 0 t.links with
    | error e => simp [hstage2] at hok
    | ok pr2 =>
      obtain ⟨links1, ns1, pool2⟩ := pr2
      simp only [hstage2, Except.ok.injEq] at hok
      subst hok
      unfold populateNodesStage at hstage1
      by_cases hemp : t.nodes.isEmpty
      · rw [if_pos hemp] at hstage1
        simp at hstage1
      · rw [if_neg hemp] at hstage1
        exact ⟨ns, pool1, ns1, pool2, hstage1, hstage2, rfl⟩

/-- C2: for every link of a successfully compiled topology and every
subnet of that link (user-supplied or pool-allocated), the recorded
gateway equals the subnet's broadcast address minus one; the broadcast
is positive on every compiled subnet, so the subtraction is exact. -/
theorem c2_gateway_is_broadcast_minus_one (pwd : String) (t : Topology)
    (pt : PopTopology) (hok : populate pwd t = .ok pt)
    (hlz : ∀ l ∈ t.links, l.subnets = ([] : List Subnet) ∧
       l.gateways = ([] : List Nat)) :
    ∀ l ∈ pt.links,
      l.gateways = l.subnets.map (fun s => bcast s - 1) ∧
      ∀ s ∈ l.subnets, 0 < bcast s := by
  obtain ⟨ns, pool1, ns1, pool2, hng, hstage, _⟩ := populate_ok_elim hok
  obtain ⟨_, _, hslink, _⟩ := stage_char hstage hlz
  intro l hm
  obtain ⟨hgw, hsprops, _, _⟩ := hslink l hm
  have hpos : ∀ s ∈ l.subnets, 0 < bcast s := by
    intro s hs
    obtain ⟨hwf, hh1⟩ := hsprops s hs
    obtain ⟨x, hx⟩ := Option.isSome_iff_exists.1 hh1
    exact bcast_pos_of_host1 hx
  refine ⟨?_, hpos⟩
  rw [hgw]
  apply List.map_congr_left
  intro s hs
  obtain ⟨hwf, _⟩ := hsprops s hs
  exact gatewayOf_eq hwf (hpos s hs)

/-- Witness for C2 on the concrete two-node /24 intent. -/
theorem c2_witness :
    populate "/" tC2 = .ok (ptOf "/" tC2) ∧
    ∀ l ∈ (ptOf "/" tC2).links,
      l.gateways = l.subnets.map (fun s => bcast s - 1) ∧
      ∀ s ∈ l.subnets, 0 < bcast s :=
  ⟨rfl, c2_gateway_is_broadcast_minus_one "/" tC2 (ptOf "/" tC2) rfl
    (by decide)⟩

/-- C1 (code behaviour at the claim's failing input): golab.Wreck is the
literal return nil, so on an intent that compiles to three nodes and two
links it performs no provider call at all — no NodeRemove, no
LinkRemove — and still reports success. -/
theorem c1_wreck_performs_no_calls :
    (populate "/" tC1).map (fun pt => (pt.nodes.length, pt.links.length))
      = .ok (3, 2) ∧
    golabWreck tC1 vpOkS = ([], none) :=
  ⟨rfl, rfl⟩

lemma buildLinks_all_ok {ε : Type} {vp : VirtProvider ε} {ls : List Link}
    (h : ∀ l ∈ ls, ∃ id, vp.linkCreate l = .ok id) :
    buildLinks vp ls = (ls.map PCall.linkCreate, none) := by
  induction ls with
  | nil => rfl
  | cons l rest ih =>
    obtain ⟨id, hid⟩ := h l (by simp)
    have ihe := ih (fun l2 hm => h l2 (List.mem_cons_of_mem _ hm))
    simp [buildLinks, hid, ihe]

lemma buildLinks_first_error {ε : Type} {vp : VirtProvider ε}
    {pre post : List Link} {l : Link} {e : ε}
    (hpre : ∀ l2 ∈ pre, ∃ id, vp.linkCreate l2 = .ok id)
    (he : vp.linkCreate l = .error e) :
    buildLinks vp (pre ++ l :: post)
      = (pre.map PCall.linkCreate ++ [PCall.linkCreate l], some e) := by
  induction pre with
  | nil => simp [buildLinks, he]
  | cons p rest ih =>
    obtain ⟨id, hid⟩ := hpre p (by simp)
    have ihe := ih (fun l2 hm => hpre l2 (List.mem_cons_of_mem _ hm))
    simp [buildLinks, hid, ihe]

lemma buildNodes_all_ok {ε : Type} {vp : VirtProvider ε}
    {ns : List (String × Node)}
    (h : ∀ kv ∈ ns, ∃ id, vp.nodeCreate kv.2 = .ok id) :
    buildNodes vp ns = (ns.map (fun kv => PCall.nodeCreate kv.2), none) := by
  induction ns with
  | nil => rfl
  | cons kv rest ih =>
    obtain ⟨id, hid⟩ := h kv (by simp)
    have ihe := ih (fun kv2 hm => h kv2 (List.mem_cons_of_mem _ hm))
    simp [buildNodes, hid, ihe]

lemma buildNodes_first_error {ε : Type} {vp : VirtProvider ε}
    {pre post : List (String × Node)} {kv : String × Node} {e : ε}
    (hpre : ∀ kv2 ∈ pre, ∃ id, vp.nodeCreate kv2.2 = .ok id)
    (he : vp.nodeCreate kv.2 = .error e) :
    buildNodes vp (pre ++ kv :: post)
      = (pre.map (fun kv2 => PCall.nodeCreate kv2.2)
          ++ [PCall.nodeCreate kv.2], some e) := by
  induction pre with
  | nil => simp [buildNodes, he]
  | cons p rest ih =>
    obtain ⟨id, hid⟩ := hpre p (by simp)
    have ihe := ih (fun kv2 hm => hpre kv2 (List.mem_cons_of_mem _ hm))
    simp [buildNodes, hid, ihe]

/-- C6: during Build, LinkCreate is called once per link and every
LinkCreate call precedes every NodeCreate call; the first provider error
aborts all remaining calls and is returned with its identity preserved
(the exact provider error value, wrapped only by the error channel). -/
theorem c6_build_order_and_first_error {ε : Type} (pwd : String)
    (t : Topology) (pt : PopTopology) (vp : VirtProvider ε)
    (hok : populate pwd t = .ok pt) :
    ((∀ l ∈ pt.links, ∃ id, vp.linkCreate l = .ok id) →
     (∀ kv ∈ pt.nodes, ∃ id, vp.nodeCreate kv.2 = .ok id) →
       golabBuild pwd t vp
         = (pt.links.map PCall.linkCreate
             ++ pt.nodes.map (fun kv => PCall.nodeCreate kv.2), none)) ∧
    (∀ pre l post e, pt.links = pre ++ l :: post →
       (∀ l2 ∈ pre, ∃ id, vp.linkCreate l2 = .ok id) →
       vp.linkCreate l = .error e →
       golabBuild pwd t vp
         = (pre.map PCall.linkCreate ++ [PCall.linkCreate l],
            some (.providerErr e))) ∧
    (∀ pre kv post e,
       (∀ l ∈ pt.links, ∃ id, vp.linkCreate l = .ok id) →
       pt.nodes = pre ++ kv :: post →
       (∀ kv2 ∈ pre, ∃ id, vp.nodeCreate kv2.2 = .ok id) →
       vp.nodeCreate kv.2 = .error e →
       golabBuild pwd t vp
         = (pt.links.map PCall.linkCreate
             ++ (pre.map (fun kv2 => PCall.nodeCreate kv2.2)
                  ++ [PCall.nodeCreate kv.2]),
            some (.providerErr e))) := by
  refine ⟨?_, ?_, ?_⟩
  · intro hlok hnok
    simp only [golabBuild, hok, buildLinks_all_ok hlok,
      buildNodes_all_ok hnok]
  · intro pre l post e hsplit hpre he
    simp only [golabBuild, hok]
    rw [hsplit]
    simp only [buildLinks_first_error hpre he]
  · intro pre kv post e hlok hsplit hpre he
    simp only [golabBuild, hok, buildLinks_all_ok hlok]
    rw [hsplit]
    simp only [buildNodes_first_error hpre he]

/-- Witness for C6 on the three-node intent with an all-success provider. -/
theorem c6_witness :
    populate "/" tC1 = .ok (ptOf "/" tC1) ∧
    golabBuild "/" tC1 vpOkS
      = ((ptOf "/" tC1).links.map PCall.linkCreate
          ++ (ptOf "/" tC1).nodes.map (fun kv => PCall.nodeCreate kv.2),
         none) :=
  ⟨rfl, (c6_build_order_and_first_error "/" tC1 (ptOf "/" tC1) vpOkS rfl).1
    (fun _ _ => ⟨"id", rfl⟩) (fun _ _ => ⟨"id", rfl⟩)⟩

/-- C7: compilation is deterministic — the node map order never leaks
into the result.  Reordering the node entries of an intent (the only
nondeterminism Go introduces, map iteration) leaves the compiled
topology unchanged, so compiling the same intent bytes twice yields
identical enriched topologies. -/
theorem c7_compile_deterministic (pwd : String) (t : Topology)
    (n2 : List (String × Option Node)) (hp : t.nodes.Perm n2)
    (hnd : (t.nodes.map Prod.fst).Nodup) :
    populate pwd t = populate pwd { t with nodes := n2 } := by
  have hemp : t.nodes.isEmpty = n2.isEmpty := by
    have hlen := hp.length_eq
    cases h1 : t.nodes.isEmpty <;> cases h2 : n2.isEmpty <;>
      simp_all [List.isEmpty_iff_length_eq_zero]
  unfold populate populateNodesStage
  rw [sortByKey_eq_of_perm hp hnd, hemp]

/-- Witness for C7: the two-node intent with its entries swapped. -/
theorem c7_witness :
    tC7a.nodes.Perm n7b ∧ (tC7a.nodes.map Prod.fst).Nodup ∧
    populate "/" tC7a = populate "/" { tC7a with nodes := n7b } :=
  ⟨List.Perm.swap _ _ _, by decide,
   c7_compile_deterministic "/" tC7a n7b (List.Perm.swap _ _ _) (by decide)⟩

lemma stage_prefix_error {ns : List (String × Node)}
    {pool : Option IPStartFrom} {i : Nat} {pre : List Link}
    {links2 : List Link} {ns2 : List (String × Node)}
    {pool2 : Option IPStartFrom}
    (hpre : populateLinksStage ns pool i pre = .ok (links2, ns2, pool2))
    {l : Link} {rest : List Link} {e : Err}
    (he : processLink ns2 pool2 (i + pre.length) l = .error e) :
    populateLinksStage ns pool i (pre ++ l :: rest) = .error e := by
  induction pre generalizing ns pool i links2 with
  | nil =>
    simp only [populateLinksStage, Except.ok.injEq, Prod.mk.injEq]
      at hpre
    obtain ⟨-, h2, h3⟩ := hpre
    subst h2; subst h3
    simp only [List.length_nil, Nat.add_zero] at he
    simp only [List.nil_append, populateLinksStage, he]
  | cons p ps ih =>
    simp only [populateLinksStage, List.cons_append] at hpre ⊢
    cases hp : processLink ns pool i p with
    | error e2 => simp [hp] at hpre
    | ok tr =>
      obtain ⟨l1, ns1, pool1⟩ := tr
      simp only [hp] at hpre ⊢
      cases hps : populateLinksStage ns1 pool1 (i + 1) ps with
      | error e2 => simp [hps] at hpre
      | ok tr2 =>
        obtain ⟨rest1, nsB, poolB⟩ := tr2
        simp only [hps, Except.ok.injEq, Prod.mk.injEq] at hpre
        obtain ⟨-, h2, h3⟩ := hpre
        subst h2; subst h3
        have he2 : processLink nsB poolB ((i + 1) + ps.length) l
            = .error e := by
          have harith : (i + 1) + ps.length = i + (p :: ps).length := by
            simp only [List.length_cons]
            omega
          rw [harith]
          exact he
        rw [List.append_eq, ih hps he2]

lemma processLink_tooFew {ns : List (String × Node)}
    {pool : Option IPStartFrom} {i : Nat} {l l2 : Link}
    {pool3 : Option IPStartFrom}
    (halloc : allocateIPSubnets pool
      { l with name := (if l.name = "" then "golab-link-" ++ toString (i + 1)
                        else l.name) } = .ok (l2, pool3))
    (hfew : l2.endpoints.length < 2) :
    processLink ns pool i l
      = .error (.tooFewEndpoints
          (if l.name = "" then "golab-link-" ++ toString (i + 1)
           else l.name)) := by
  simp only [processLink, halloc, if_pos hfew]

/-- C4 (amended): a link with fewer than two endpoints is rejected with
TooFewEndpoints only after its subnets resolve — provided the node stage
succeeded, every earlier link compiled, and this link's subnet
allocation succeeded (its declared subnets parse, or a pool entry was
taken), compilation fails with ErrTooFewEndpoints naming the link.
Without those provisos the claim is false: subnet resolution runs first,
so a one-endpoint link with no subnets and no pool yields
ErrMissingSubnets instead. -/
theorem c4_too_few_endpoints_after_subnets (pwd : String) (t : Topology)
    (ns : List (String × Node)) (pool1 : Option IPStartFrom)
    (pre : List Link) (l : Link) (post : List Link)
    (links2 : List Link) (ns2 : List (String × Node))
    (pool2 : Option IPStartFrom) (l2 : Link)
    (pool3 : Option IPStartFrom)
    (hns : populateNodesStage pwd t.nodes t.ipStartFrom = .ok (ns, pool1))
    (hsplit : t.links = pre ++ l :: post)
    (hpre : populateLinksStage ns pool1 0 pre = .ok (links2, ns2, pool2))
    (halloc : allocateIPSubnets pool2
      { l with name := (if l.name = "" then
                          "golab-link-" ++ toString (pre.length + 1)
                        else l.name) } = .ok (l2, pool3))
    (hfew : l2.endpoints.length < 2) :
    populate pwd t
      = .error (.tooFewEndpoints
          (if l.name = "" then "golab-link-" ++ toString (pre.length + 1)
           else l.name)) := by
  have he : processLink ns2 pool2 (0 + pre.length) l
      = .error (.tooFewEndpoints
          (if l.name = "" then "golab-link-" ++ toString (pre.length + 1)
           else l.name)) := by
    rw [Nat.zero_add]
    exact processLink_tooFew halloc hfew
  have hstage := @stage_prefix_error ns pool1 0 pre links2 ns2 pool2
    hpre l post _ he
  simp only [populate, hns, hsplit, hstage]

/-- Counterexample to C4 as stated: the link has one endpoint, yet
compilation reports ErrMissingSubnets, not ErrTooFewEndpoints, because
subnet resolution precedes the endpoint-count check. -/
theorem c4_counterexample :
    tC4.links.map (fun l => l.endpoints.length) = [1] ∧
    populate "/" tC4 = .error (.missingSubnets "golab-link-1") ∧
    errKindOf (populate "/" tC4) ≠ some .tooFewEndpoints := by decide

/-- Witness for the amended C4: the same one-endpoint link with a
declared subnet does fail with ErrTooFewEndpoints. -/
theorem c4_witness :
    populate "/" tC4w = .error (.tooFewEndpoints "golab-link-1") :=
  c4_too_few_endpoints_after_subnets "/" tC4w
    [("R1", nodeR1p)] none [] lC4w [] [] [("R1", nodeR1p)] none l2C4w none
    rfl rfl rfl rfl (by decide)

lemma processEndpoints_exhaust (nm : String) (subs : List Subnet) :
    ∀ (eps : List String) (j : Nat) (ns : List (String × Node)),
    (∀ ep ∈ eps, ∃ a b, strSplitOn ep ":" = [a, b] ∧
       a ∈ ns.map Prod.fst ∧ strStartsWith b "eth" = true) →
    (∃ s ∈ subs, hostCapacity s < j + eps.length) →
    0 < eps.length →
    ∃ s num, processEndpoints nm subs eps j ns
      = .error (.subnetExhausted s num) := by
  intro eps
  induction eps with
  | nil => intro j ns _ _ hpos; simp at hpos
  | cons ep rest ih =>
    intro j ns hvalid hex _
    obtain ⟨a, b, hsp, hmem, hsw⟩ := hvalid ep (by simp)
    have hlk := alookup_isSome_of_mem_keys hmem
    obtain ⟨nd, hnd⟩ := Option.isSome_iff_exists.1 hlk
    cases hha : hostAddrs subs (j + 1) with
    | error e =>
      obtain ⟨s, hs, he⟩ := hostAddrs_error_shape hha
      refine ⟨s, j + 1, ?_⟩
      simp [processEndpoints, hsp, hnd, hsw, hha, he]
    | ok pr =>
      obtain ⟨v4a, v6a⟩ := pr
      obtain ⟨s0, hs0, hcap⟩ := hex
      cases rest with
      | nil =>
        have hle := hostAddrs_ok_isSome hha s0 hs0
        rw [cidrHost_isSome_iff] at hle
        simp only [List.length_cons, List.length_nil] at hcap
        omega
      | cons ep2 rest2 =>
        have hvalid2 : ∀ ep3 ∈ ep2 :: rest2, ∃ a2 b2,
            strSplitOn ep3 ":" = [a2, b2] ∧
            a2 ∈ (aupdate ns a (fun n =>
              { n with interfaces :=
                  n.interfaces ++ [⟨b, nm, v4a, v6a, false⟩] })).map
              Prod.fst ∧
            strStartsWith b2 "eth" = true := by
          intro ep3 hm3
          obtain ⟨a2, b2, h1, h2, h3⟩ :=
            hvalid ep3 (List.mem_cons_of_mem _ hm3)
          rw [aupdate_keys]
          exact ⟨a2, b2, h1, h2, h3⟩
        have hex2 : ∃ s ∈ subs,
            hostCapacity s < (j + 1) + (ep2 :: rest2).length := by
          refine ⟨s0, hs0, ?_⟩
          simp only [List.length_cons] at hcap ⊢
          omega
        obtain ⟨s, num, hres⟩ := ih (j + 1)
          (aupdate ns a (fun n =>
            { n with interfaces :=
                n.interfaces ++ [⟨b, nm, v4a, v6a, false⟩] }))
          hvalid2 hex2 (by simp)
        refine ⟨s, num, ?_⟩
        simp [processEndpoints, hsp, hnd, hsw, hha] at hres ⊢
        exact hres

lemma processLink_exhaust {ns : List (String × Node)}
    {pool : Option IPStartFrom} {i : Nat} {l l2 : Link}
    {pool3 : Option IPStartFrom}
    (halloc : allocateIPSubnets pool
      { l with name := (if l.name = "" then "golab-link-" ++ toString (i + 1)
                        else l.name) } = .ok (l2, pool3))
    (hlen : 2 ≤ l2.endpoints.length)
    (hvalid : ∀ ep ∈ l2.endpoints, ∃ a b, strSplitOn ep ":" = [a, b] ∧
       a ∈ ns.map Prod.fst ∧ strStartsWith b "eth" = true)
    (hex : ∃ s ∈ l2.subnets, hostCapacity s < l2.endpoints.length) :
    ∃ s num, processLink ns pool i l
      = .error (.subnetExhausted s num) := by
  have hex0 : ∃ s ∈ l2.subnets,
      hostCapacity s < 0 + l2.endpoints.length := by
    obtain ⟨s, hs, hc⟩ := hex
    exact ⟨s, hs, by omega⟩
  obtain ⟨s, num, hres⟩ := processEndpoints_exhaust
    (if l.name = "" then "golab-link-" ++ toString (i + 1) else l.name)
    l2.subnets l2.endpoints 0 ns hvalid hex0 (by omega)
  refine ⟨s, num, ?_⟩
  simp only [processLink, halloc, if_neg (by omega : ¬ l2.endpoints.length < 2),
    hres]

/-- C8: whenever a link's endpoint list is longer than the host capacity
of one of its (successfully resolved) subnets — so the 1-based position
of the last endpoint exceeds the number of host addresses, as when
allocating past a /31 — compilation fails with the SubnetExhausted
error kind, provided the node stage and all earlier links succeeded and
every endpoint of the link is well-formed. -/
theorem c8_subnet_exhausted (pwd : String) (t : Topology)
    (ns : List (String × Node)) (pool1 : Option IPStartFrom)
    (pre : List Link) (l : Link) (post : List Link)
    (links2 : List Link) (ns2 : List (String × Node))
    (pool2 : Option IPStartFrom) (l2 : Link)
    (pool3 : Option IPStartFrom)
    (hns : populateNodesStage pwd t.nodes t.ipStartFrom = .ok (ns, pool1))
    (hsplit : t.links = pre ++ l :: post)
    (hpre : populateLinksStage ns pool1 0 pre = .ok (links2, ns2, pool2))
    (halloc : allocateIPSubnets pool2
      { l with name := (if l.name = "" then
                          "golab-link-" ++ toString (pre.length + 1)
                        else l.name) } = .ok (l2, pool3))
    (hlen : 2 ≤ l2.endpoints.length)
    (hvalid : ∀ ep ∈ l2.endpoints, ∃ a b, strSplitOn ep ":" = [a, b] ∧
       a ∈ ns2.map Prod.fst ∧ strStartsWith b "eth" = true)
    (hex : ∃ s ∈ l2.subnets, hostCapacity s < l2.endpoints.length) :
    errKindOf (populate pwd t) = some .subnetExhausted := by
  obtain ⟨s, num, hproc⟩ := processLink_exhaust halloc hlen hvalid hex
  have he : processLink ns2 pool2 (0 + pre.length) l
      = .error (.subnetExhausted s num) := by
    rw [Nat.zero_add]
    exact hproc
  have hstage := @stage_prefix_error ns pool1 0 pre links2 ns2 pool2
    hpre l post _ he
  simp only [populate, hns, hsplit, hstage, errKindOf, Err.kind]

/-- Witness for C8 on the concrete /31 intent. -/
theorem c8_witness :
    errKindOf (populate "/" tC8) = some .subnetExhausted := by
  refine c8_subnet_exhausted "/" tC8 nsC8 none [] lC8 [] [] nsC8 none
    l2C8 none rfl rfl rfl rfl (by decide) ?_ ⟨sC8, by decide, by decide⟩
  intro ep hm
  simp only [l2C8, List.mem_cons, List.not_mem_nil, or_false] at hm
  rcases hm with rfl | rfl
  · exact ⟨"R1", "eth0", rfl, by decide, rfl⟩
  · exact ⟨"R2", "eth0", rfl, by decide, rfl⟩

/-- Counterexample to C5 as stated: with the /0 pool entry both
subnet-less links are auto-assigned the very same subnet 0.0.0.0/0 —
the cursor advance wraps around to itself — so two consecutive
auto-allocated subnets of the same prefix length do overlap. -/
theorem c5_counterexample :
    tC5.links.map Link.rawSubnets = [none, none] ∧
    (populate "/" tC5).map (fun pt => pt.links.map Link.subnets)
      = .ok [[⟨true, 0, 0⟩], [⟨true, 0, 0⟩]] ∧
    subnetsOverlap ⟨true, 0, 0⟩ ⟨true, 0, 0⟩ = true := by decide

/-- C5 (amended): when a link declares no subnets and the pool has link
entries, the link receives exactly the pool's current cursor subnets
(every entry, with their gateways) and each cursor advances to the next
subnet of the same prefix length; for cursors of prefix length at least
one the advanced subnet never overlaps its predecessor.  The original
claim is false at prefix length zero, where the advance wraps to the
same subnet. -/
theorem c5_auto_allocation (sf : IPStartFrom) (link : Link)
    (raws : List IPStr) (sns : List Subnet)
    (hrs : link.rawSubnets = none)
    (hsfl : sf.rawLinks = some raws)
    (hparse : parseAll raws = some sns)
    (hz : link.subnets = [])
    (hgw : link.gateways = []) :
    allocateIPSubnets (some sf) link
      = .ok ({ link with rawSubnets := some raws, subnets := sns, gateways := sns.map gatewayOf }, some { sf with rawLinks := some (sns.map (fun s => renderSubnet (nextSubnet s))) }) ∧
    (∀ s ∈ sns, (nextSubnet s).plen = s.plen) ∧
    (∀ s ∈ sns, 1 ≤ s.plen → subnetsOverlap s (nextSubnet s) = false) := by
  refine ⟨?_, fun s _ => rfl, fun s hs hp =>
    subnetsOverlap_next_false (parseAll_wf hparse s hs) hp⟩
  simp only [allocateIPSubnets, hrs, hsfl, advancePool_char hparse,
    parseAll_parseSubnets hparse, hz, hgw, List.nil_append]

/-- Witness for the amended C5 on a /29 pool cursor. -/
theorem c5_witness :
    allocateIPSubnets (some sf29) lC5w
      = .ok ({ lC5w with rawSubnets := some raws29, subnets := [s29], gateways := [s29].map gatewayOf }, some { sf29 with rawLinks := some ([s29].map (fun s => renderSubnet (nextSubnet s))) }) ∧
    (∀ s ∈ [s29], (nextSubnet s).plen = s.plen) ∧
    (∀ s ∈ [s29], 1 ≤ s.plen → subnetsOverlap s (nextSubnet s) = false) :=
  c5_auto_allocation sf29 lC5w raws29 [s29] rfl rfl rfl rfl rfl

/-- Counterexample to C3 as stated: with two IPv4 subnets on one link,
endpoint 1 (R1:eth0) is NOT assigned host 1 of each subnet — its single
interface carries 10.0.1.1/24, the first host of the LAST IPv4 subnet
only, and no interface records 10.0.0.1/24 although 10.0.0.0/24 is among
the link's subnets. -/
theorem c3_counterexample :
    (populate "/" tC3).map (fun pt =>
        (pt.links.map (fun l => (l.name, l.subnets, l.endpoints)),
         pt.nodes.map (fun kv =>
           (kv.1, kv.2.interfaces.map (fun ifc =>
              (ifc.name, ifc.link, ifc.ipv4, ifc.ipv6))))))
      = .ok ([("l3",
               [⟨true, ip4n 10 0 0 0, 24⟩, ⟨true, ip4n 10 0 1 0, 24⟩],
               ["R1:eth0", "R2:eth0"])],
             [("R1", [("eth0", "l3",
                       some (.cidr true (ip4n 10 0 1 1) 24), none)]),
              ("R2", [("eth0", "l3",
                       some (.cidr true (ip4n 10 0 1 2) 24), none)])]) := rfl

lemma addedIfaces_length (nm : String) (subs : List Subnet) :
    ∀ (eps : List String) (j : Nat) (k : String),
    (addedIfaces nm subs eps j k).length = eps.countP (epRefs k) := by
  intro eps
  induction eps with
  | nil => intro j k; rfl
  | cons ep rest ih =>
    intro j k
    simp only [addedIfaces, List.length_append, List.countP_cons, ih]
    rcases hsp : strSplitOn ep ":" with _ | ⟨n, _ | ⟨i, _ | ⟨m, tl⟩⟩⟩
    · simp [epRefs, hsp, Nat.add_comm]
    · simp [epRefs, hsp, Nat.add_comm]
    · by_cases hk : n = k
      · simp [epRefs, hsp, hk, Nat.add_comm]
      · simp [epRefs, hsp, hk, Nat.add_comm]
    · simp [epRefs, hsp, Nat.add_comm]

lemma mem_stageAdded_of_mem {links : List Link} {l : Link} (hm : l ∈ links)
    {k : String} {ifc : Iface}
    (hi : ifc ∈ addedIfaces l.name l.subnets l.endpoints 0 k) :
    ifc ∈ stageAdded links k := by
  induction links with
  | nil => cases hm
  | cons p rest ih =>
    rw [stageAdded_cons]
    rcases List.mem_cons.1 hm with rfl | hm2
    · exact List.mem_append_left _ hi
    · exact List.mem_append_right _ (ih hm2)

lemma stageAdded_length (links : List Link) (k : String) :
    (stageAdded links k).length
      = (links.map (fun l => l.endpoints.countP (epRefs k))).sum := by
  induction links with
  | nil => rfl
  | cons l rest ih =>
    rw [stageAdded_cons, List.length_append, addedIfaces_length, ih]
    simp

/-- C3 (amended): for every link of a successfully compiled topology,
the endpoint at 0-based position d receives exactly ONE interface on the
referenced node, named after the endpoint, wired to the link, and its
IPv4/IPv6 address is host d+1 of the LAST subnet of that family on the
link (network address plus d+1 at the subnet's prefix length, computed
by the same rule for both families); earlier subnets of the same family
are overwritten, which refutes the per-subnet reading of the claim.  The
per-node interface count is the loopback contribution (at most one) plus
one interface per endpoint referencing the node. -/
theorem c3_endpoint_addresses (pwd : String) (t : Topology)
    (pt : PopTopology)
    (hok : populate pwd t = .ok pt)
    (hnd : (t.nodes.map Prod.fst).Nodup)
    (hnz : ∀ kv ∈ t.nodes, ∀ n, kv.2 = some n →
       n.interfaces = ([] : List Iface))
    (hlz : ∀ l ∈ t.links, l.subnets = ([] : List Subnet) ∧
       l.gateways = ([] : List Nat)) :
    (∀ l ∈ pt.links, ∀ d (hd : d < l.endpoints.length), ∀ a b,
       strSplitOn (l.endpoints.get ⟨d, hd⟩) ":" = [a, b] →
       ∃ nd, alookup pt.nodes a = some nd ∧
         (b, l.name, epAddr true l.subnets (d + 1),
          epAddr false l.subnets (d + 1)) ∈ nd.interfaces.map ifaceSig) ∧
    (∀ k nd, alookup pt.nodes k = some nd →
       ∃ loN, loN ≤ 1 ∧ nd.interfaces.length
         = loN + (pt.links.map
             (fun l => l.endpoints.countP (epRefs k))).sum) := by
  obtain ⟨hlinks, hkeys, heps, hnodes⟩ := populate_char hok hnd hnz hlz
  constructor
  · intro l hm d hd a b hsp
    have hmemep : (l.endpoints.get ⟨d, hd⟩) ∈ l.endpoints :=
      List.get_mem _ _ _
    obtain ⟨a2, b2, hsp2, hmemk, hsw⟩ := heps l hm _ hmemep
    rw [hsp] at hsp2
    injection hsp2 with h1 h2
    injection h2 with h2 h3
    subst h1; subst h2
    have hlk := alookup_isSome_of_mem_keys hmemk
    obtain ⟨nd, hnd2⟩ := Option.isSome_iff_exists.1 hlk
    obtain ⟨n0, loIfs, hlkt, hsig, _, _, _⟩ := hnodes a nd hnd2
    refine ⟨nd, hnd2, ?_⟩
    rw [hsig]
    have hadd := @addedIfaces_mem_of_get l.name l.subnets l.endpoints 0 d
      hd a b hsp
    rw [Nat.zero_add] at hadd
    have hmem2 : (⟨b, l.name, epAddr true l.subnets (d + 1),
        epAddr false l.subnets (d + 1), false⟩ : Iface)
        ∈ loIfs ++ stageAdded pt.links a :=
      List.mem_append_right _ (mem_stageAdded_of_mem hm hadd)
    exact List.mem_map_of_mem ifaceSig hmem2
  · intro k nd hlook
    obtain ⟨n0, loIfs, hlkt, hsig, hloCond, hloNone, _⟩ := hnodes k nd hlook
    refine ⟨loIfs.length, ?_, ?_⟩
    · by_cases hc : n0.loopbacks.isSome = true ∨
          poolLoopsB t.ipStartFrom = true
      · obtain ⟨ifc, hif, _, _⟩ := hloCond hc
        rw [hif]
        simp
      · push_neg at hc
        have h1 : n0.loopbacks = none :=
          Option.not_isSome_iff_eq_none.1 (by
            intro hcon
            exact hc.1 hcon)
        have h2 : poolLoopsB t.ipStartFrom = false := by
          cases hb : poolLoopsB t.ipStartFrom with
          | false => rfl
          | true => exact absurd hb hc.2
        rw [hloNone ⟨h1, h2⟩]
        decide
    · have hlen := congrArg List.length hsig
      rw [List.length_map, List.length_map, List.length_append] at hlen
      rw [hlen, stageAdded_length]

/-- Witness for the amended C3 on the two-subnet intent. -/
theorem c3_witness :
    populate "/" tC3 = .ok (ptOf "/" tC3) ∧
    ((∀ l ∈ (ptOf "/" tC3).links, ∀ d (hd : d < l.endpoints.length),
        ∀ a b,
        strSplitOn (l.endpoints.get ⟨d, hd⟩) ":" = [a, b] →
        ∃ nd, alookup (ptOf "/" tC3).nodes a = some nd ∧
          (b, l.name, epAddr true l.subnets (d + 1),
           epAddr false l.subnets (d + 1)) ∈ nd.interfaces.map ifaceSig) ∧
     (∀ k nd, alookup (ptOf "/" tC3).nodes k = some nd →
        ∃ loN, loN ≤ 1 ∧ nd.interfaces.length
          = loN + ((ptOf "/" tC3).links.map
              (fun l => l.endpoints.countP (epRefs k))).sum)) :=
  ⟨rfl, c3_endpoint_addresses "/" tC3 (ptOf "/" tC3) rfl (by decide)
    (by intro kv hm n hn
        simp only [tC3, List.mem_cons, List.not_mem_nil, or_false] at hm
        rcases hm with rfl | rfl <;> (cases hn; rfl))
    (by decide)⟩

/-- Counterexample to C9 as stated: with no loopback addresses and no
loopback pool the compiled node has NO interface at all — in particular
no interface named lo — yet compilation succeeds. -/
theorem c9_counterexample :
    (populate "/" tC9).map (fun pt =>
        pt.nodes.map (fun kv =>
          ((kv.2.interfaces.countP (fun ifc => ifc.name == "lo")),
           kv.2.interfaces.length)))
      = .ok [(0, 0)] := rfl

lemma eth_not_lo {s : String} (h : strStartsWith s "eth" = true) :
    (s == "lo") = false := by
  cases hb : s == "lo" with
  | false => rfl
  | true =>
    have h2 : s = "lo" := eq_of_beq hb
    subst h2
    exact absurd h (by decide)

/-- C9 (amended): after a successful compilation a node carries exactly
one lo interface, placed before every link interface (all of which are
eth-named), precisely when the node declared loopback addresses or a
loopback pool is configured; a node with neither gets no lo interface at
all, which refutes the unconditional reading of the claim. -/
theorem c9_lo_placement (pwd : String) (t : Topology) (pt : PopTopology)
    (hok : populate pwd t = .ok pt)
    (hnd : (t.nodes.map Prod.fst).Nodup)
    (hnz : ∀ kv ∈ t.nodes, ∀ n, kv.2 = some n →
       n.interfaces = ([] : List Iface))
    (hlz : ∀ l ∈ t.links, l.subnets = ([] : List Subnet) ∧
       l.gateways = ([] : List Nat)) :
    ∀ k nd, alookup pt.nodes k = some nd →
      ∃ n0, alookup t.nodes k = some (some n0) ∧
        ((n0.loopbacks.isSome = true ∨ poolLoopsB t.ipStartFrom = true) →
           nd.interfaces.countP (fun ifc => ifc.name == "lo") = 1 ∧
           ∃ sig0 sigs, nd.interfaces.map ifaceSig = sig0 :: sigs ∧
             sig0.1 = "lo" ∧
             ∀ sg ∈ sigs, strStartsWith sg.1 "eth" = true) ∧
        ((n0.loopbacks = none ∧ poolLoopsB t.ipStartFrom = false) →
           nd.interfaces.countP (fun ifc => ifc.name == "lo") = 0) := by
  obtain ⟨_, _, _, hnodes⟩ := populate_char hok hnd hnz hlz
  intro k nd hlook
  obtain ⟨n0, loIfs, hlkt, hsig, hloCond, hloNone, heth⟩ := hnodes k nd hlook
  have hcount : nd.interfaces.countP (fun ifc => ifc.name == "lo")
      = (nd.interfaces.map ifaceSig).countP (fun sg => sg.1 == "lo") := by
    rw [List.countP_map]
    rfl
  refine ⟨n0, hlkt, ?_, ?_⟩
  · intro hc
    obtain ⟨ifc, hif, hnm, _⟩ := hloCond hc
    subst hif
    have hsig2 : nd.interfaces.map ifaceSig
        = ifaceSig ifc :: (stageAdded pt.links k).map ifaceSig := by
      rw [hsig]
      simp
    constructor
    · rw [hcount, hsig2, List.countP_cons]
      have hz : ((stageAdded pt.links k).map ifaceSig).countP
          (fun sg => sg.1 == "lo") = 0 := by
        rw [List.countP_eq_zero]
        intro sg hm
        obtain ⟨ifc2, hm2, hsg⟩ := List.mem_map.1 hm
        rw [← hsg]
        have := (heth ifc2 hm2).2
        simp [ifaceSig, eth_not_lo this]
      rw [hz]
      simp [ifaceSig, hnm]
    · refine ⟨ifaceSig ifc, (stageAdded pt.links k).map ifaceSig,
        hsig2, hnm, ?_⟩
      intro sg hm
      obtain ⟨ifc2, hm2, hsg⟩ := List.mem_map.1 hm
      rw [← hsg]
      exact (heth ifc2 hm2).2
  · intro hc
    rw [hloNone hc, List.nil_append] at hsig
    rw [hcount, hsig, List.countP_eq_zero]
    intro sg hm
    obtain ⟨ifc2, hm2, hsg⟩ := List.mem_map.1 hm
    rw [← hsg]
    have := (heth ifc2 hm2).2
    simp [ifaceSig, eth_not_lo this]

/-- Witness for the amended C9: a node with a declared loopback gets
exactly one lo interface, first in its interface list. -/
theorem c9_witness :
    populate "/" tC9w = .ok (ptOf "/" tC9w) ∧
    ∀ k nd, alookup (ptOf "/" tC9w).nodes k = some nd →
      ∃ n0, alookup tC9w.nodes k = some (some n0) ∧
        ((n0.loopbacks.isSome = true ∨
            poolLoopsB tC9w.ipStartFrom = true) →
           nd.interfaces.countP (fun ifc => ifc.name == "lo") = 1 ∧
           ∃ sig0 sigs, nd.interfaces.map ifaceSig = sig0 :: sigs ∧
             sig0.1 = "lo" ∧
             ∀ sg ∈ sigs, strStartsWith sg.1 "eth" = true) ∧
        ((n0.loopbacks = none ∧ poolLoopsB tC9w.ipStartFrom = false) →
           nd.interfaces.countP (fun ifc => ifc.name == "lo") = 0) :=
  ⟨rfl, c9_lo_placement "/" tC9w (ptOf "/" tC9w) rfl (by decide)
    (by intro kv hm n hn
        simp only [tC9w, List.mem_cons, List.not_mem_nil, or_false] at hm
        rcases hm with rfl
        cases hn
        rfl)
    (by decide)⟩

lemma populateBindsGo_nml {pwd : String} {extra bs : List String} {e : Err}
    (h : populateBindsGo pwd extra bs = .error e) :
    e.kind ≠ .missingLoopbacks := by
  induction bs with
  | nil => simp [populateBindsGo] at h
  | cons b rest ih =>
    rcases hsp : strSplitOn b ":" with _ | ⟨s1, _ | ⟨s2, _ | ⟨s3, tl⟩⟩⟩ <;>
      simp only [populateBindsGo, hsp] at h
    · injection h with h2
      subst h2
      simp [Err.kind]
    · injection h with h2
      subst h2
      simp [Err.kind]
    · by_cases habs : pathIsAbs s2 = true
      · simp only [habs, if_true] at h
        cases hrec : populateBindsGo pwd extra rest with
        | error e2 =>
          simp only [hrec] at h
          injection h with h2
          subst h2
          exact ih hrec
        | ok tail => simp [hrec] at h
      · simp only [habs, if_false] at h
        injection h with h2
        subst h2
        simp [Err.kind]
    · injection h with h2
      subst h2
      simp [Err.kind]

lemma populateBinds_nml {pwd : String} {vendor : Vendor}
    {binds : List String} {e : Err}
    (h : populateBinds pwd vendor binds = .error e) :
    e.kind ≠ .missingLoopbacks := by
  simp only [populateBinds] at h
  cases hrec : populateBindsGo pwd (extraBinds vendor) binds with
  | error e2 =>
    simp only [hrec] at h
    injection h with h2
    subst h2
    exact populateBindsGo_nml hrec
  | ok bs => simp [hrec] at h

lemma applyEnable_nml {nodeName : String} {p : Protocols} {l : List String}
    {e : Err} (h : applyEnable nodeName p l = .error e) :
    e.kind ≠ .missingLoopbacks := by
  induction l generalizing p with
  | nil => simp [applyEnable] at h
  | cons proto rest ih =>
    simp only [applyEnable] at h
    by_cases h1 : proto = "isis"
    · rw [if_pos h1] at h; exact ih h
    · rw [if_neg h1] at h
      by_cases h2 : proto = "ospf"
      · rw [if_pos h2] at h; exact ih h
      · rw [if_neg h2] at h
        by_cases h3 : proto = "ospf6"
        · rw [if_pos h3] at h; exact ih h
        · rw [if_neg h3] at h
          by_cases h4 : proto = "bgp"
          · rw [if_pos h4] at h; exact ih h
          · rw [if_neg h4] at h
            by_cases h5 : proto = "ldp"
            · rw [if_pos h5] at h; exact ih h
            · rw [if_neg h5] at h
              injection h with h6
              subst h6
              simp [Err.kind]

lemma populateProtocols_nml {node : Node} {e : Err}
    (h : populateProtocols node = .error e) :
    e.kind ≠ .missingLoopbacks := by
  simp only [populateProtocols] at h
  by_cases he : node.enable.isEmpty = true
  · simp [he] at h
  · simp only [he, if_false, Bool.false_eq_true] at h
    cases hrec : applyEnable node.name ⟨false, false, false, false, false⟩
        node.enable with
    | error e2 =>
      simp only [hrec] at h
      injection h with h2
      subst h2
      exact applyEnable_nml hrec
    | ok p => simp [hrec] at h

lemma advancePool_nml {raws : List IPStr} {e : Err}
    (h : advancePool raws = .error e) :
    e.kind ≠ .missingLoopbacks := by
  induction raws with
  | nil => simp [advancePool] at h
  | cons r rest ih =>
    simp only [advancePool] at h
    cases hr : parseCIDR r with
    | none =>
      simp only [hr] at h
      injection h with h2
      subst h2
      simp [Err.kind]
    | some pr =>
      simp only [hr] at h
      cases hrec : advancePool rest with
      | error e2 =>
        simp only [hrec] at h
        injection h with h2
        subst h2
        exact ih hrec
      | ok nexts => simp [hrec] at h

lemma setLoopAddrs_nml {ifc : Iface} {loops : List IPStr} {e : Err}
    (h : setLoopAddrs ifc loops = .error e) :
    e.kind ≠ .missingLoopbacks := by
  induction loops generalizing ifc with
  | nil => simp [setLoopAddrs] at h
  | cons addr rest ih =>
    simp only [setLoopAddrs] at h
    cases hr : parseCIDR addr with
    | none =>
      simp only [hr] at h
      injection h with h2
      subst h2
      simp [Err.kind]
    | some pr =>
      simp only [hr] at h
      by_cases hv : pr.2.v4 = true
      · rw [if_pos hv] at h; exact ih h
      · rw [if_neg hv] at h; exact ih h

lemma attachLo_nml {node : Node} {loops : List IPStr}
    {pool : Option IPStartFrom} {e : Err}
    (h : attachLo node loops pool = .error e) :
    e.kind ≠ .missingLoopbacks := by
  simp only [attachLo] at h
  cases hrec : setLoopAddrs loIfaceBase loops with
  | error e2 =>
    simp only [hrec] at h
    injection h with h2
    subst h2
    exact setLoopAddrs_nml hrec
  | ok ifc => simp [hrec] at h

lemma populateLoopbacks_nml {pool : Option IPStartFrom} {node : Node}
    {e : Err} (h : populateLoopbacks pool node = .error e) :
    e.kind ≠ .missingLoopbacks := by
  simp only [populateLoopbacks] at h
  cases hlb : node.loopbacks with
  | some loops =>
    simp only [hlb] at h
    exact attachLo_nml h
  | none =>
    simp only [hlb] at h
    cases pool with
    | none => simp at h
    | some sf =>
      cases hrl : sf.rawLoopbacks with
      | none => simp [hrl] at h
      | some raws =>
        simp only [hrl] at h
        cases hadv : advancePool raws with
        | error e2 =>
          simp only [hadv] at h
          injection h with h2
          subst h2
          exact advancePool_nml hadv
        | ok nexts =>
          simp only [hadv] at h
          exact attachLo_nml h

lemma populateNode_nml {pwd name : String} {n : Node}
    {pool : Option IPStartFrom} {e : Err}
    (h : populateNode pwd name n pool = .error e) :
    e.kind ≠ .missingLoopbacks := by
  simp only [populateNode] at h
  cases hb : populateBinds pwd
      (detectByImage n.image) n.binds with
  | error e2 =>
    simp only [hb] at h
    injection h with h2
    subst h2
    exact populateBinds_nml hb
  | ok bs =>
    simp only [hb] at h
    cases hp : populateProtocols
        { n with name := name, vendor := detectByImage n.image,
                 binds := bs } with
    | error e2 =>
      simp only [hp] at h
      injection h with h2
      subst h2
      exact populateProtocols_nml hp
    | ok n3 =>
      simp only [hp] at h
      exact populateLoopbacks_nml h

lemma populateNodesGo_nml {pwd : String}
    {entries : List (String × Option Node)} {pool : Option IPStartFrom}
    {e : Err} (h : populateNodesGo pwd entries pool = .error e) :
    e.kind ≠ .missingLoopbacks := by
  induction entries generalizing pool with
  | nil => simp [populateNodesGo] at h
  | cons kv rest ih =>
    obtain ⟨name, optN⟩ := kv
    cases optN with
    | none =>
      simp only [populateNodesGo] at h
      injection h with h2
      subst h2
      simp [Err.kind]
    | some n =>
      simp only [populateNodesGo] at h
      by_cases hi : n.image = ""
      · rw [if_pos hi] at h
        injection h with h2
        subst h2
        simp [Err.kind]
      · rw [if_neg hi] at h
        cases hn : populateNode pwd name n pool with
        | error e2 =>
          simp only [hn] at h
          injection h with h2
          subst h2
          exact populateNode_nml hn
        | ok pr =>
          obtain ⟨n2, pool2⟩ := pr
          simp only [hn] at h
          cases hrec : populateNodesGo pwd rest pool2 with
          | error e2 =>
            simp only [hrec] at h
            injection h with h2
            subst h2
            exact ih hrec
          | ok pr2 => simp [hrec] at h

lemma populateNodesStage_nml {pwd : String}
    {nodes : List (String × Option Node)} {pool : Option IPStartFrom}
    {e : Err} (h : populateNodesStage pwd nodes pool = .error e) :
    e.kind ≠ .missingLoopbacks := by
  unfold populateNodesStage at h
  by_cases hemp : nodes.isEmpty = true
  · simp only [hemp, if_true] at h
    injection h with h2
    subst h2
    simp [Err.kind]
  · simp only [hemp, if_false, Bool.false_eq_true] at h
    exact populateNodesGo_nml h

lemma parseSubnets_nml {raws : List IPStr} {e : Err}
    (h : parseSubnets raws = .error e) :
    e.kind ≠ .missingLoopbacks := by
  induction raws with
  | nil => simp [parseSubnets] at h
  | cons r rest ih =>
    simp only [parseSubnets] at h
    cases hr : parseCIDR r with
    | none =>
      simp only [hr] at h
      injection h with h2
      subst h2
      simp [Err.kind]
    | some pr =>
      simp only [hr] at h
      cases hrec : parseSubnets rest with
      | error e2 =>
        simp only [hrec] at h
        injection h with h2
        subst h2
        exact ih hrec
      | ok pr2 =>
        obtain ⟨sns, gws⟩ := pr2
        simp [hrec] at h

lemma allocateIPSubnets_nml {pool : Option IPStartFrom} {link : Link}
    {e : Err} (h : allocateIPSubnets pool link = .error e) :
    e.kind ≠ .missingLoopbacks := by
  simp only [allocateIPSubnets] at h
  cases hrs : link.rawSubnets with
  | some raws =>
    simp only [hrs] at h
    cases hp : parseSubnets raws with
    | error e2 =>
      simp only [hp] at h
      injection h with h2
      subst h2
      exact parseSubnets_nml hp
    | ok pr =>
      obtain ⟨sns, gws⟩ := pr
      simp [hp] at h
  | none =>
    simp only [hrs] at h
    cases pool with
    | none =>
      injection h with h2
      subst h2
      simp [Err.kind]
    | some sf =>
      cases hrl : sf.rawLinks with
      | none =>
        simp only [hrl] at h
        injection h with h2
        subst h2
        simp [Err.kind]
      | some raws =>
        simp only [hrl] at h
        cases hadv : advancePool raws with
        | error e2 =>
          simp only [hadv] at h
          injection h with h2
          subst h2
          exact advancePool_nml hadv
        | ok nexts =>
          simp only [hadv] at h
          cases hp : parseSubnets raws with
          | error e2 =>
            simp only [hp] at h
            injection h with h2
            subst h2
            exact parseSubnets_nml hp
          | ok pr =>
            obtain ⟨sns, gws⟩ := pr
            simp [hp] at h

lemma processEndpoints_nml {linkName : String} {subs : List Subnet}
    {eps : List String} {j : Nat} {ns : List (String × Node)} {e : Err}
    (h : processEndpoints linkName subs eps j ns = .error e) :
    e.kind ≠ .missingLoopbacks := by
  induction eps generalizing j ns with
  | nil => simp [processEndpoints] at h
  | cons ep rest ih =>
    rcases hsp : strSplitOn ep ":" with _ | ⟨s1, _ | ⟨s2, _ | ⟨s3, tl⟩⟩⟩ <;>
      simp only [processEndpoints, hsp] at h
    · injection h with h2
      subst h2
      simp [Err.kind]
    · injection h with h2
      subst h2
      simp [Err.kind]
    · cases hlk : alookup ns s1 with
      | none =>
        simp only [hlk] at h
        injection h with h2
        subst h2
        simp [Err.kind]
      | some nd =>
        simp only [hlk] at h
        by_cases hsw : strStartsWith s2 "eth" = true
        · rw [if_pos hsw] at h
          cases hha : hostAddrs subs (j + 1) with
          | error e2 =>
            simp only [hha] at h
            injection h with h2
            subst h2
            obtain ⟨s, hs, hshape⟩ := hostAddrs_error_shape hha
            subst hshape
            simp [Err.kind]
          | ok pr =>
            obtain ⟨v4a, v6a⟩ := pr
            simp only [hha] at h
            exact ih h
        · rw [if_neg hsw] at h
          injection h with h2
          subst h2
          simp [Err.kind]
    · injection h with h2
      subst h2
      simp [Err.kind]

lemma processLink_nml {ns : List (String × Node)}
    {pool : Option IPStartFrom} {i : Nat} {link : Link} {e : Err}
    (h : processLink ns pool i link = .error e) :
    e.kind ≠ .missingLoopbacks := by
  simp only [processLink] at h
  cases halloc : allocateIPSubnets pool
      { link with name := (if link.name = ""
          then "golab-link-" ++ toString (i + 1) else link.name) } with
  | error e2 =>
    simp only [halloc] at h
    injection h with h2
    subst h2
    exact allocateIPSubnets_nml halloc
  | ok pr =>
    obtain ⟨link2, pool1⟩ := pr
    simp only [halloc] at h
    by_cases hfew : link2.endpoints.length < 2
    · rw [if_pos hfew] at h
      injection h with h2
      subst h2
      simp [Err.kind]
    · rw [if_neg hfew] at h
      cases hpe : processEndpoints
          (if link.name = "" then "golab-link-" ++ toString (i + 1)
           else link.name) link2.subnets link2.endpoints 0 ns with
      | error e2 =>
        simp only [hpe] at h
        injection h with h2
        subst h2
        exact processEndpoints_nml hpe
      | ok ns1 => simp [hpe] at h

lemma populateLinksStage_nml {ns : List (String × Node)}
    {pool : Option IPStartFrom} {i : Nat} {links : List Link} {e : Err}
    (h : populateLinksStage ns pool i links = .error e) :
    e.kind ≠ .missingLoopbacks := by
  induction links generalizing ns pool i with
  | nil => simp [populateLinksStage] at h
  | cons l rest ih =>
    simp only [populateLinksStage] at h
    cases hp : processLink ns pool i l with
    | error e2 =>
      simp only [hp] at h
      injection h with h2
      subst h2
      exact processLink_nml hp
    | ok pr =>
      obtain ⟨l1, ns1, pool1⟩ := pr
      simp only [hp] at h
      cases hrec : populateLinksStage ns1 pool1 (i + 1) rest with
      | error e2 =>
        simp only [hrec] at h
        injection h with h2
        subst h2
        exact ih hrec
      | ok pr2 =>
        obtain ⟨rest1, ns2, pool2⟩ := pr2
        simp [hrec] at h

lemma populate_nml {pwd : String} {t : Topology} {e : Err}
    (h : populate pwd t = .error e) :
    e.kind ≠ .missingLoopbacks := by
  unfold populate at h
  cases hs1 : populateNodesStage pwd t.nodes t.ipStartFrom with
  | error e2 =>
    simp only [hs1] at h
    injection h with h2
    subst h2
    exact populateNodesStage_nml hs1
  | ok pr1 =>
    obtain ⟨ns, pool1⟩ := pr1
    simp only [hs1] at h
    cases hs2 : populateLinksStage ns pool1 0 t.links with
    | error e2 =>
      simp only [hs2] at h
      injection h with h2
      subst h2
      exact populateLinksStage_nml hs2
    | ok pr2 =>
      obtain ⟨links1, ns1, pool2⟩ := pr2
      simp [hs2] at h

/-- Counterexample to C10 as stated: the loopback-less node in a
pool-less topology compiles to a node with an EMPTY interface list —
it does not receive any lo interface, empty-addressed or otherwise. -/
theorem c10_counterexample :
    (populate "/" tC10).map (fun pt =>
        pt.nodes.map (fun kv => kv.2.interfaces)) = .ok [[]] := rfl

/-- C10 (amended): the declared ErrMissingLoopbacks error is indeed
never produced — every compilation error has a different kind — and a
node that supplies no loopbacks in a topology without a loopback pool
receives NO lo interface at all (rather than one with empty address
fields): every interface it ends up with is a link interface. -/
theorem c10_no_missing_loopbacks :
    (∀ (pwd : String) (t : Topology) (e : Err),
       populate pwd t = .error e → e.kind ≠ .missingLoopbacks) ∧
    (∀ (pwd : String) (t : Topology) (pt : PopTopology),
       populate pwd t = .ok pt →
       (t.nodes.map Prod.fst).Nodup →
       (∀ kv ∈ t.nodes, ∀ n, kv.2 = some n →
          n.interfaces = ([] : List Iface)) →
       (∀ l ∈ t.links, l.subnets = ([] : List Subnet) ∧
          l.gateways = ([] : List Nat)) →
       ∀ k nd, alookup pt.nodes k = some nd →
         ∀ n0, alookup t.nodes k = some (some n0) →
           n0.loopbacks = none → poolLoopsB t.ipStartFrom = false →
           ∀ ifc ∈ nd.interfaces, (ifc.name == "lo") = false) := by
  constructor
  · intro pwd t e h
    exact populate_nml h
  · intro pwd t pt hok hnd hnz hlz k nd hlook n0 hlkt hln hpool ifc hm
    obtain ⟨_, _, _, hnodes⟩ := populate_char hok hnd hnz hlz
    obtain ⟨n1, loIfs, hlkt2, hsig, _, hloNone, heth⟩ := hnodes k nd hlook
    rw [hlkt] at hlkt2
    injection hlkt2 with h1
    injection h1 with h1
    subst h1
    rw [hloNone ⟨hln, hpool⟩, List.nil_append] at hsig
    have hsgm : ifaceSig ifc ∈ (stageAdded pt.links k).map ifaceSig := by
      rw [← hsig]
      exact List.mem_map_of_mem ifaceSig hm
    obtain ⟨ifc2, hm2, hsg⟩ := List.mem_map.1 hsgm
    have hname : ifc.name = ifc2.name := by
      have := congrArg Prod.fst hsg
      simpa [ifaceSig] using this.symm
    rw [hname]
    exact eth_not_lo (heth ifc2 hm2).2

/-- Witness for the amended C10 on the concrete pool-less intent. -/
theorem c10_witness :
    populate "/" tC10 = .ok (ptOf "/" tC10) ∧
    ∀ k nd, alookup (ptOf "/" tC10).nodes k = some nd →
      ∀ n0, alookup tC10.nodes k = some (some n0) →
        n0.loopbacks = none → poolLoopsB tC10.ipStartFrom = false →
        ∀ ifc ∈ nd.interfaces, (ifc.name == "lo") = false :=
  ⟨rfl, c10_no_missing_loopbacks.2 "/" tC10 (ptOf "/" tC10) rfl (by decide)
    (by intro kv hm n hn
        simp only [tC10, List.mem_cons, List.not_mem_nil, or_false] at hm
        rcases hm with rfl
        cases hn
        rfl)
    (by decide)⟩

end GoLab
